import Mathlib

/-!
Verification of the ThreadPool class (src/ThreadPool/ThreadPool.h).

The development embeds the pool as a small-step interleaved transition system.
Tasks are identified by the natural number recording their submission order
(0, 1, 2, ...).  A worker thread is a record holding the program counter of
the loop body of InitThead (lines 160-199), the task pointer it currently
owns, the shared atomic stop flag it captured at creation, whether its thread
handle has been detached, and the slot index it was created with (the id it
passes to tasks).  The controller (the thread that owns the ThreadPool object
and calls its public member functions) runs a script of API calls; each call
is broken into the micro-steps separated by the lock boundaries and atomic
accesses of the source, so that worker steps interleave with them exactly
where the hardware could interleave them.

Correspondence with the source:
- the task queue field models std::queue of task pointers (_tasks, line 14);
- the pool field models the index-aligned pair _threads / _threadsStopFlags
  (lines 15-16): it holds, for each live pool slot, the index of the worker
  record in the workers history list (workers that were detached by a
  shrinking Init stay in the history but leave the pool, exactly as a
  detached std::thread keeps running after the vector entry is destroyed);
- idle models _idleThreadsCount (line 17, an int, hence Int here);
- doneFlag / stopFlag model _doneFlag / _stopFlag (lines 18-19);
- handles models the std::future shared states created by Enqueue, indexed
  by task id; executed and discarded are event histories recording each
  task invocation (line 175) and each ClearTasks deletion (line 223).

Condition-variable waits are modelled by allowing a parked worker to
re-evaluate its wait predicate at any time; std::condition_variable permits
spurious wakeups, so every behaviour of the model is a possible behaviour of
the source and vice versa.  notify_one / notify_all therefore need no
explicit transition.
-/

namespace ThreadPoolModel

/-- Outcome of running a submitted callable with a worker id: a normal return
value or a raised failure.  The std::packaged_task built in Enqueue
(ThreadPool.h lines 93-94) stores either into the future's shared state. -/
inductive TOut where
  | ok (v : Nat)
  | err (e : Nat)
deriving DecidableEq

/-- State of the std::future shared state behind a Result Handle: untouched,
fulfilled with a value, fulfilled with a captured failure, or abandoned
(the packaged_task was destroyed unfulfilled when ClearTasks deleted the
task, which stores a broken_promise error). -/
inductive HState where
  | pending
  | resolvedOk (v : Nat)
  | resolvedErr (e : Nat)
  | broken
deriving DecidableEq

/-- What a call to future::get observes for each handle state. -/
inductive ReadRes where
  | value (v : Nat)
  | raised (e : Nat)
  | brokenPromise
  | blocked
deriving DecidableEq

/-- Semantics of future::get on a handle: a pending handle blocks the reader,
a value is returned, a captured failure is re-raised, a broken promise raises
std::future_error. -/
def readHandle : HState → ReadRes
  | HState.pending => ReadRes.blocked
  | HState.resolvedOk v => ReadRes.value v
  | HState.resolvedErr e => ReadRes.raised e
  | HState.broken => ReadRes.brokenPromise

/-- The handle state produced by invoking the packaged_task: the callable's
outcome, value or captured failure, is stored in the shared state. -/
def toH : TOut → HState
  | TOut.ok v => HState.resolvedOk v
  | TOut.err e => HState.resolvedErr e

/-- Program counter of the worker loop body (InitThead, lines 164-196):
popping = about to call PopTask from the running loop (line 169 or 180);
running = holds a popped task, about to invoke it (line 175);
flagCheck = just finished a task, about to test its stop flag (line 177);
parked = inside the signal wait, after incrementing the idle counter
(lines 184-191); terminated = returned from the thread function. -/
inductive WPC where
  | popping
  | running
  | flagCheck
  | parked
  | terminated
deriving DecidableEq

/-- One worker thread: loop program counter, currently owned task (between a
successful PopTask and the invocation), the shared stop flag captured at
line 162, whether the std::thread handle was detached (Init line 146), and
the slot index captured at creation (passed to tasks as the id). -/
structure WorkerT where
  pc : WPC
  held : Option Nat
  flag : Bool
  detached : Bool
  wid : Nat
deriving DecidableEq

/-- Public API calls the controller thread can make, in program order. -/
inductive Op where
  | enqueue
  | stop (wait : Bool)
  | resize (n : Nat)
deriving DecidableEq

/-- Micro-program-counter of the controller thread.  ready l = between API
calls, l still to be made.  The stop states follow Stop (lines 50-88):
stopFlags i tc = in the per-worker flag loop of Stop(false) at index i with
the thread count read as tc (line 64); stopDiscard1 = in the ClearTasks call
of line 69; stopJoin i = in the join loop of lines 77-83; stopDiscard2 = in
the ClearTasks call of line 85; stopClear = about to clear the two
collections (lines 86-87).  The resize states follow Init (lines 121-157):
resizeGrow n = in the spawn loop of lines 135-139; resizeShrink i n = in the
shrink loop of lines 143-147 with unsigned counter i; crashed = the shrink
loop indexed _threadsStopFlags out of bounds (undefined behaviour). -/
inductive Ctrl where
  | ready (script : List Op)
  | stopFlags (i tc : Nat) (rest : List Op)
  | stopDiscard1 (rest : List Op)
  | stopJoin (i : Nat) (rest : List Op)
  | stopDiscard2 (rest : List Op)
  | stopClear (rest : List Op)
  | resizeGrow (n : Nat) (rest : List Op)
  | resizeShrink (i n : Nat) (rest : List Op)
  | crashed
deriving DecidableEq

/-- The complete state of one ThreadPool object plus the run histories.
workers is the append-only history of every worker thread ever spawned;
pool holds the worker indices currently stored in _threads (index-aligned
with _threadsStopFlags); nextId is the id the next Enqueue will create. -/
structure Sys where
  queue : List Nat
  nextId : Nat
  workers : List WorkerT
  pool : List Nat
  idle : Int
  doneFlag : Bool
  stopFlag : Bool
  handles : List HState
  executed : List Nat
  discarded : List Nat
  ctrl : Ctrl
deriving DecidableEq

/-- PushTask (lines 201-205): append the task at the tail of the queue under
the queue lock. -/
def PushTask (q : List Nat) (t : Nat) : List Nat := q ++ [t]

/-- PopTask (lines 207-216): under the queue lock, report empty on an empty
queue, otherwise remove and return the head.  It never blocks. -/
def PopTask (q : List Nat) : Option (Nat × List Nat) :=
  match q with
  | [] => none
  | t :: r => some (t, r)

/-- Repeatedly PopTask, collecting the tasks in pop order; fuel bounds the
number of pops. -/
def popAll : Nat → List Nat → List Nat
  | 0, _ => []
  | fuel + 1, q =>
    match PopTask q with
    | none => []
    | some (t, r) => t :: popAll fuel r

/-- ThreadsCount (lines 40-43): the size of the _threads collection. -/
def ThreadsCount (s : Sys) : Nat := s.pool.length

/-- IdleThreadsCount (lines 45-48): the value of the _idleThreadsCount
atomic int. -/
def IdleThreadsCount (s : Sys) : Int := s.idle

/-- A freshly spawned worker (InitThead, lines 160-199): it starts at the
initial PopTask of line 169, owns no task, its shared stop flag was created
false (Init line 137), its thread is joinable, and it keeps the slot index
it was spawned at. -/
def mkWorker (i : Nat) : WorkerT :=
  { pc := WPC.popping, held := none, flag := false, detached := false, wid := i }

/-- A pool right after the ThreadPool(n) constructor ran Init(n) (growing
from zero workers), with the controller about to run the given script. -/
def mkInit (n : Nat) (script : List Op) : Sys :=
  { queue := []
    nextId := 0
    workers := (List.range n).map mkWorker
    pool := List.range n
    idle := 0
    doneFlag := false
    stopFlag := false
    handles := []
    executed := []
    discarded := []
    ctrl := Ctrl.ready script }

/-- Arithmetic of the unsigned int loop counter of Init's shrink loop. -/
def wrap32 (n : Nat) : Nat := n % 4294967296

/-- Decrement of an unsigned int: i - 1 with wraparound at zero. -/
def udec (i : Nat) : Nat := wrap32 (i + 4294967295)

/-- Which thread takes a step: worker w, or the controller thread. -/
inductive Lbl where
  | wrk (w : Nat)
  | ctl
deriving DecidableEq

/-- One atomic step of the system, parameterized by the behaviour beh of the
submitted callables: beh t id is the outcome of task t when invoked with
worker id.  Worker constructors embed the loop of InitThead lines 164-196;
controller constructors embed Enqueue (90-112), Stop (50-88) and Init
(121-157), cut at lock boundaries and atomic accesses. -/
inductive Step (beh : Nat → Nat → TOut) : Lbl → Sys → Sys → Prop where
  /-- Lines 169/180: PopTask succeeds; the worker takes ownership of the
  head task and proceeds to invoke it. -/
  | popOk {s : Sys} {w : Nat} {wt : WorkerT} {t : Nat} {q' : List Nat}
      (hw : s.workers[w]? = some wt) (hpc : wt.pc = WPC.popping)
      (hq : PopTask s.queue = some (t, q')) :
      Step beh (Lbl.wrk w) s
        { s with queue := q'
                 workers := s.workers.set w
                   { wt with pc := WPC.running, held := some t } }
  /-- Lines 169/180 then 184-185: PopTask reports empty; the worker takes the
  collection lock, increments the idle counter and enters the signal wait. -/
  | popEmpty {s : Sys} {w : Nat} {wt : WorkerT}
      (hw : s.workers[w]? = some wt) (hpc : wt.pc = WPC.popping)
      (hq : PopTask s.queue = none) :
      Step beh (Lbl.wrk w) s
        { s with idle := s.idle + 1
                 workers := s.workers.set w { wt with pc := WPC.parked } }
  /-- Line 175: the worker invokes the task with its slot id; the
  packaged_task stores the callable's value or captured failure into the
  future shared state and the wrapper returns normally either way, after
  which the task object is deleted (line 174) and the worker reaches the
  stop-flag test of line 177. -/
  | execTask {s : Sys} {w : Nat} {wt : WorkerT} {t : Nat}
      (hw : s.workers[w]? = some wt) (hpc : wt.pc = WPC.running)
      (hh : wt.held = some t) :
      Step beh (Lbl.wrk w) s
        { s with handles := s.handles.set t (toH (beh t wt.wid))
                 executed := s.executed ++ [t]
                 workers := s.workers.set w
                   { wt with pc := WPC.flagCheck, held := none } }
  /-- Lines 177-178: the worker's own stop flag is set; it returns without
  another PopTask. -/
  | flagExit {s : Sys} {w : Nat} {wt : WorkerT}
      (hw : s.workers[w]? = some wt) (hpc : wt.pc = WPC.flagCheck)
      (hf : wt.flag = true) :
      Step beh (Lbl.wrk w) s
        { s with workers := s.workers.set w { wt with pc := WPC.terminated } }
  /-- Line 177 falls through, line 180: the flag is clear; the worker loops
  back to PopTask. -/
  | flagCont {s : Sys} {w : Nat} {wt : WorkerT}
      (hw : s.workers[w]? = some wt) (hpc : wt.pc = WPC.flagCheck)
      (hf : wt.flag = false) :
      Step beh (Lbl.wrk w) s
        { s with workers := s.workers.set w { wt with pc := WPC.popping } }
  /-- Lines 186-194: the wait predicate pops a task; the wait returns, the
  idle counter is decremented, and the worker proceeds to invoke the task. -/
  | wakePop {s : Sys} {w : Nat} {wt : WorkerT} {t : Nat} {q' : List Nat}
      (hw : s.workers[w]? = some wt) (hpc : wt.pc = WPC.parked)
      (hq : PopTask s.queue = some (t, q')) :
      Step beh (Lbl.wrk w) s
        { s with queue := q'
                 idle := s.idle - 1
                 workers := s.workers.set w
                   { wt with pc := WPC.running, held := some t } }
  /-- Lines 186-194: the wait predicate finds no task but _doneFlag or the
  worker's own flag is set; the wait returns, the idle counter is
  decremented, and isTaskAvailable is false so the worker returns. -/
  | wakeExit {s : Sys} {w : Nat} {wt : WorkerT}
      (hw : s.workers[w]? = some wt) (hpc : wt.pc = WPC.parked)
      (hq : PopTask s.queue = none)
      (hsig : s.doneFlag = true ∨ wt.flag = true) :
      Step beh (Lbl.wrk w) s
        { s with idle := s.idle - 1
                 workers := s.workers.set w { wt with pc := WPC.terminated } }
  /-- Enqueue (lines 90-112): wrap the callable, PushTask the unit, create
  the pending future, notify one idle worker.  No lifecycle flag is
  checked. -/
  | enqueueStep {s : Sys} {rest : List Op}
      (hc : s.ctrl = Ctrl.ready (Op.enqueue :: rest)) :
      Step beh Lbl.ctl s
        { s with queue := PushTask s.queue s.nextId
                 handles := s.handles ++ [HState.pending]
                 nextId := s.nextId + 1
                 ctrl := Ctrl.ready rest }
  /-- Stop(true), lines 54-55: _doneFlag or _stopFlag already set, return
  immediately. -/
  | stopTrueEarly {s : Sys} {rest : List Op}
      (hc : s.ctrl = Ctrl.ready (Op.stop true :: rest))
      (hfl : s.doneFlag = true ∨ s.stopFlag = true) :
      Step beh Lbl.ctl s { s with ctrl := Ctrl.ready rest }
  /-- Stop(true), line 56: set _doneFlag, then notify all and enter the join
  loop of line 77. -/
  | stopTrueSet {s : Sys} {rest : List Op}
      (hc : s.ctrl = Ctrl.ready (Op.stop true :: rest))
      (hd : s.doneFlag = false) (hs : s.stopFlag = false) :
      Step beh Lbl.ctl s
        { s with doneFlag := true, ctrl := Ctrl.stopJoin 0 rest }
  /-- Stop(false), lines 60-61: _stopFlag already set, return immediately.
  Note that _doneFlag is not consulted on this path. -/
  | stopFalseEarly {s : Sys} {rest : List Op}
      (hc : s.ctrl = Ctrl.ready (Op.stop false :: rest))
      (hs : s.stopFlag = true) :
      Step beh Lbl.ctl s { s with ctrl := Ctrl.ready rest }
  /-- Stop(false), lines 63-64: set _stopFlag and read ThreadsCount() into
  the flag-loop bound. -/
  | stopFalseSet {s : Sys} {rest : List Op}
      (hc : s.ctrl = Ctrl.ready (Op.stop false :: rest))
      (hs : s.stopFlag = false) :
      Step beh Lbl.ctl s
        { s with stopFlag := true
                 ctrl := Ctrl.stopFlags 0 s.pool.length rest }
  /-- Stop(false), line 66: set the stop flag of the worker in pool slot i. -/
  | stopFlagStep {s : Sys} {i tc : Nat} {rest : List Op} {j : Nat} {wt : WorkerT}
      (hc : s.ctrl = Ctrl.stopFlags i tc rest) (hi : i < tc)
      (hp : s.pool[i]? = some j) (hj : s.workers[j]? = some wt) :
      Step beh Lbl.ctl s
        { s with workers := s.workers.set j { wt with flag := true }
                 ctrl := Ctrl.stopFlags (i + 1) tc rest }
  /-- Stop(false), flag loop exhausted; proceed to the ClearTasks call of
  line 69. -/
  | stopFlagDone {s : Sys} {i tc : Nat} {rest : List Op}
      (hc : s.ctrl = Ctrl.stopFlags i tc rest) (hi : tc ≤ i) :
      Step beh Lbl.ctl s { s with ctrl := Ctrl.stopDiscard1 rest }
  /-- ClearTasks (lines 218-225) from Stop(false) line 69: pop one task and
  delete it without invoking it; destroying its unfulfilled packaged_task
  breaks the promise. -/
  | discard1Pop {s : Sys} {rest : List Op} {t : Nat} {q' : List Nat}
      (hc : s.ctrl = Ctrl.stopDiscard1 rest)
      (hq : PopTask s.queue = some (t, q')) :
      Step beh Lbl.ctl s
        { s with queue := q'
                 discarded := s.discarded ++ [t]
                 handles := s.handles.set t HState.broken }
  /-- ClearTasks of line 69 finds the queue empty; notify all idle workers
  (lines 72-75) and enter the join loop. -/
  | discard1Done {s : Sys} {rest : List Op}
      (hc : s.ctrl = Ctrl.stopDiscard1 rest) (hq : PopTask s.queue = none) :
      Step beh Lbl.ctl s { s with ctrl := Ctrl.stopJoin 0 rest }
  /-- Join loop, lines 77-83: a detached thread is not joinable and is
  skipped; a joinable thread is joined, which blocks until it terminated. -/
  | joinStep {s : Sys} {i : Nat} {rest : List Op} {j : Nat} {wt : WorkerT}
      (hc : s.ctrl = Ctrl.stopJoin i rest) (hi : i < s.pool.length)
      (hp : s.pool[i]? = some j) (hj : s.workers[j]? = some wt)
      (hterm : wt.detached = true ∨ wt.pc = WPC.terminated) :
      Step beh Lbl.ctl s { s with ctrl := Ctrl.stopJoin (i + 1) rest }
  /-- Join loop exhausted; proceed to the ClearTasks call of line 85. -/
  | joinDone {s : Sys} {i : Nat} {rest : List Op}
      (hc : s.ctrl = Ctrl.stopJoin i rest) (hi : s.pool.length ≤ i) :
      Step beh Lbl.ctl s { s with ctrl := Ctrl.stopDiscard2 rest }
  /-- ClearTasks (lines 218-225) from line 85: pop and delete one task. -/
  | discard2Pop {s : Sys} {rest : List Op} {t : Nat} {q' : List Nat}
      (hc : s.ctrl = Ctrl.stopDiscard2 rest)
      (hq : PopTask s.queue = some (t, q')) :
      Step beh Lbl.ctl s
        { s with queue := q'
                 discarded := s.discarded ++ [t]
                 handles := s.handles.set t HState.broken }
  /-- ClearTasks of line 85 finds the queue empty. -/
  | discard2Done {s : Sys} {rest : List Op}
      (hc : s.ctrl = Ctrl.stopDiscard2 rest) (hq : PopTask s.queue = none) :
      Step beh Lbl.ctl s { s with ctrl := Ctrl.stopClear rest }
  /-- Lines 86-87: clear _threads and _threadsStopFlags; Stop returns. -/
  | clearStep {s : Sys} {rest : List Op}
      (hc : s.ctrl = Ctrl.stopClear rest) :
      Step beh Lbl.ctl s { s with pool := [], ctrl := Ctrl.ready rest }
  /-- Init (resize), lines 123-124: a stop is in progress, return. -/
  | resizeEarly {s : Sys} {n : Nat} {rest : List Op}
      (hc : s.ctrl = Ctrl.ready (Op.resize n :: rest))
      (hfl : s.doneFlag = true ∨ s.stopFlag = true) :
      Step beh Lbl.ctl s { s with ctrl := Ctrl.ready rest }
  /-- Init, lines 126-128: the requested count equals the current count,
  return. -/
  | resizeSame {s : Sys} {n : Nat} {rest : List Op}
      (hc : s.ctrl = Ctrl.ready (Op.resize n :: rest))
      (hd : s.doneFlag = false) (hs : s.stopFlag = false)
      (hn : s.pool.length = n) :
      Step beh Lbl.ctl s { s with ctrl := Ctrl.ready rest }
  /-- Init, line 130: grow; resize the collections and enter the spawn loop
  of lines 135-139.  The count argument is an unsigned int. -/
  | resizeGrowStart {s : Sys} {n : Nat} {rest : List Op}
      (hc : s.ctrl = Ctrl.ready (Op.resize n :: rest))
      (hd : s.doneFlag = false) (hs : s.stopFlag = false)
      (hlt : s.pool.length < n) (hbound : n < 4294967296) :
      Step beh Lbl.ctl s { s with ctrl := Ctrl.resizeGrow n rest }
  /-- Spawn loop, lines 135-139: create a fresh false stop flag and a worker
  thread for the next slot.  The source resizes _threads up front and then
  fills slots; the model appends slot by slot, which no other thread can
  observe because only the controller reads the collection sizes. -/
  | growStep {s : Sys} {n : Nat} {rest : List Op}
      (hc : s.ctrl = Ctrl.resizeGrow n rest) (hlt : s.pool.length < n) :
      Step beh Lbl.ctl s
        { s with workers := s.workers ++ [mkWorker s.pool.length]
                 pool := s.pool ++ [s.workers.length]
                 ctrl := Ctrl.resizeGrow n rest }
  /-- Spawn loop exhausted; Init returns. -/
  | growDone {s : Sys} {n : Nat} {rest : List Op}
      (hc : s.ctrl = Ctrl.resizeGrow n rest) (hge : n ≤ s.pool.length) :
      Step beh Lbl.ctl s { s with ctrl := Ctrl.ready rest }
  /-- Init, line 141: shrink; enter the loop of lines 143-147 at
  i = current - 1.  The loop condition is i >= threadsCount on an unsigned
  counter. -/
  | resizeShrinkStart {s : Sys} {n : Nat} {rest : List Op}
      (hc : s.ctrl = Ctrl.ready (Op.resize n :: rest))
      (hd : s.doneFlag = false) (hs : s.stopFlag = false)
      (hlt : n < s.pool.length) :
      Step beh Lbl.ctl s
        { s with ctrl := Ctrl.resizeShrink (s.pool.length - 1) n rest }
  /-- Shrink loop body, lines 145-146: set the stop flag of the worker in
  slot i and detach its thread, then decrement the unsigned counter. -/
  | shrinkStep {s : Sys} {i n : Nat} {rest : List Op} {j : Nat} {wt : WorkerT}
      (hc : s.ctrl = Ctrl.resizeShrink i n rest) (hi : n ≤ i)
      (hp : s.pool[i]? = some j) (hj : s.workers[j]? = some wt) :
      Step beh Lbl.ctl s
        { s with workers := s.workers.set j
                   { wt with flag := true, detached := true }
                 ctrl := Ctrl.resizeShrink (udec i) n rest }
  /-- Shrink loop body with the counter at or past the collection size: the
  accesses _threadsStopFlags[i] and _threads[i] are out of bounds, which is
  undefined behaviour.  Reached from a shrink to zero, where the unsigned
  counter wraps from 0 to 4294967295 instead of going below the loop
  bound. -/
  | shrinkOOB {s : Sys} {i n : Nat} {rest : List Op}
      (hc : s.ctrl = Ctrl.resizeShrink i n rest) (hi : n ≤ i)
      (hoob : s.pool.length ≤ i) :
      Step beh Lbl.ctl s { s with ctrl := Ctrl.crashed }
  /-- Shrink loop exhausted (i went below threadsCount, only possible for
  threadsCount >= 1): notify all (lines 149-153) and truncate the two
  collections (lines 155-156); Init returns. -/
  | shrinkDone {s : Sys} {i n : Nat} {rest : List Op}
      (hc : s.ctrl = Ctrl.resizeShrink i n rest) (hlt : i < n) :
      Step beh Lbl.ctl s
        { s with pool := s.pool.take n, ctrl := Ctrl.ready rest }

/-- A step by any thread. -/
def SysStep (beh : Nat → Nat → TOut) (s s' : Sys) : Prop :=
  ∃ l, Step beh l s s'

/-- Reachability by interleaved execution from a given start state. -/
def Reachable (beh : Nat → Nat → TOut) (s0 s : Sys) : Prop :=
  Relation.ReflTransGen (SysStep beh) s0 s

/-- Number of workers currently holding task t. -/
def heldCount (s : Sys) (t : Nat) : Nat :=
  s.workers.countP (fun w => w.held == some t)

/-- Number of places task t occupies: queue entries, worker hands, execution
events and discard events. -/
def occ (s : Sys) (t : Nat) : Nat :=
  s.queue.count t + heldCount s t + s.executed.count t + s.discarded.count t

/-- Number of currently parked workers. -/
def parkedCount (s : Sys) : Nat :=
  s.workers.countP (fun w => w.pc == WPC.parked)

/-- Number of workers whose thread was detached by a shrinking resize and
has not yet terminated. -/
def detachedAliveCount (s : Sys) : Nat :=
  s.workers.countP (fun w => w.detached && !(w.pc == WPC.terminated))

/-- The two mutexes of the class: _tasksMutex (line 21) guarding _tasks and
_threadsMutex (line 20) guarding the signal and the collections. -/
inductive LockId where
  | tasks
  | threads
deriving DecidableEq

/-- A lock event: acquire a mutex, release a mutex, or be blocked inside
_signal.wait (entered only after the wait released _threadsMutex). -/
inductive LockEv where
  | acq (l : LockId)
  | rel (l : LockId)
  | blockedOnSignal
deriving DecidableEq

/-- Locks held after one event, given those held before. -/
def stepHeld (h : List LockId) : LockEv → List LockId
  | LockEv.acq l => l :: h
  | LockEv.rel l => h.erase l
  | LockEv.blockedOnSignal => h

/-- Locks held after a sequence of events. -/
def heldAfter (evs : List LockEv) : List LockId :=
  evs.foldl stepHeld []

/-- Checks that whenever the thread is blocked on the signal, it holds no
lock at all. -/
def blockedFree : List LockId → List LockEv → Bool
  | _, [] => true
  | h, LockEv.acq l :: r => blockedFree (l :: h) r
  | h, LockEv.rel l :: r => blockedFree (h.erase l) r
  | h, LockEv.blockedOnSignal :: r => h.isEmpty && blockedFree h r

/-- Checks that _threadsMutex is never acquired while _tasksMutex is held:
every nesting of the two locks takes _threadsMutex first.  Together with the
fact that this is the only nesting order, no lock-ordering cycle exists. -/
def noRevOrder : List LockId → List LockEv → Bool
  | _, [] => true
  | h, LockEv.acq l :: r =>
      !(l == LockId.threads && h.contains LockId.tasks) && noRevOrder (l :: h) r
  | h, LockEv.rel l :: r => noRevOrder (h.erase l) r
  | h, LockEv.blockedOnSignal :: r => noRevOrder h r

/-- Lock events of one worker loop iteration (InitThead lines 164-196):
initial PopTask (lock, unlock at lines 209/215), task invocation (no locks),
a failed PopTask, then the wait region: acquire _threadsMutex (line 184),
evaluate the wait predicate, which calls PopTask and hence acquires and
releases _tasksMutex while _threadsMutex is held (line 188), block (the wait
releases _threadsMutex), wake and reacquire it, re-evaluate the predicate,
and leave the region at the end of the iteration. -/
def WorkerLockTrace : List LockEv :=
  [LockEv.acq LockId.tasks, LockEv.rel LockId.tasks,
   LockEv.acq LockId.tasks, LockEv.rel LockId.tasks,
   LockEv.acq LockId.threads,
   LockEv.acq LockId.tasks, LockEv.rel LockId.tasks,
   LockEv.rel LockId.threads, LockEv.blockedOnSignal,
   LockEv.acq LockId.threads,
   LockEv.acq LockId.tasks, LockEv.rel LockId.tasks,
   LockEv.rel LockId.threads]

/-- Lock events of Enqueue (lines 90-112): PushTask under _tasksMutex, then
the notify block under _threadsMutex.  The two are sequential, never
nested. -/
def EnqueueLockTrace : List LockEv :=
  [LockEv.acq LockId.tasks, LockEv.rel LockId.tasks,
   LockEv.acq LockId.threads, LockEv.rel LockId.threads]

/-- Lock events of a representative Stop(false) with one queued task and no
joinable worker: ClearTasks at line 69 (one successful pop, one empty pop),
the notify block of lines 72-75, the joins (no locks), and ClearTasks at
line 85 (empty pop). -/
def StopLockTrace : List LockEv :=
  [LockEv.acq LockId.tasks, LockEv.rel LockId.tasks,
   LockEv.acq LockId.tasks, LockEv.rel LockId.tasks,
   LockEv.acq LockId.threads, LockEv.rel LockId.threads,
   LockEv.acq LockId.tasks, LockEv.rel LockId.tasks]

/-- Lock events of ClearTasks (lines 218-225) popping k tasks before the
empty pop: each iteration locks and unlocks _tasksMutex once. -/
def clearTraceN : Nat → List LockEv
  | 0 => [LockEv.acq LockId.tasks, LockEv.rel LockId.tasks]
  | k + 1 => LockEv.acq LockId.tasks :: LockEv.rel LockId.tasks :: clearTraceN k

/-- Behaviour in which every callable returns 0. -/
def behZ : Nat → Nat → TOut := fun _ _ => TOut.ok 0

/-- Behaviour for the failure scenario: the first submitted callable raises
failure 7, every other callable returns 42. -/
def behC8 : Nat → Nat → TOut := fun t _ =>
  if t = 0 then TOut.err 7 else TOut.ok 42

/-! Concrete states reached by the finite scenarios used as counterexamples
and witnesses.  Each is the literal value of the state after the listed
steps from the listed initial pool. -/

/-- State of a 1-worker pool after stop(true) completed and a task was then
enqueued: the first Stop has taken effect (doneFlag set, worker joined and
collections cleared). -/
def sC3pre : Sys :=
  { queue := [0]
    nextId := 1
    workers := [{ pc := WPC.terminated, held := none, flag := false, detached := false, wid := 0 }]
    pool := []
    idle := 0
    doneFlag := true
    stopFlag := false
    handles := [HState.pending]
    executed := []
    discarded := []
    ctrl := Ctrl.ready [Op.stop false] }

/-- State after the second stop, Stop(false), ran to completion from
sC3pre: it set _stopFlag and discarded the queued task. -/
def sC3fin : Sys :=
  { queue := []
    nextId := 1
    workers := [{ pc := WPC.terminated, held := none, flag := false, detached := false, wid := 0 }]
    pool := []
    idle := 0
    doneFlag := true
    stopFlag := true
    handles := [HState.broken]
    executed := []
    discarded := [0]
    ctrl := Ctrl.ready [] }

/-- State used as the C3 witness: a pool with _doneFlag already set whose
controller is about to call Stop(true) again. -/
def sC3w : Sys :=
  { queue := []
    nextId := 0
    workers := []
    pool := []
    idle := 0
    doneFlag := true
    stopFlag := false
    handles := []
    executed := []
    discarded := []
    ctrl := Ctrl.ready [Op.stop true] }

/-- State of a 1-worker pool at the moment Stop(false) is called (the
controller is about to execute the call) with task 0 still in the queue and
the worker still at its initial PopTask. -/
def sC4call : Sys :=
  { queue := [0]
    nextId := 1
    workers := [mkWorker 0]
    pool := [0]
    idle := 0
    doneFlag := false
    stopFlag := false
    handles := [HState.pending]
    executed := []
    discarded := []
    ctrl := Ctrl.ready [Op.stop false] }

/-- State after Stop(false) ran to completion from sC4call under the
interleaving in which the worker popped and executed task 0 between the
_stopFlag store of line 63 and the per-worker flag store of line 66: the
task that was queued at the moment of the call was executed, not
discarded. -/
def sC4fin : Sys :=
  { queue := []
    nextId := 1
    workers := [{ pc := WPC.terminated, held := none, flag := true, detached := false, wid := 0 }]
    pool := []
    idle := 0
    doneFlag := false
    stopFlag := true
    handles := [HState.resolvedOk 0]
    executed := [0]
    discarded := []
    ctrl := Ctrl.ready [] }

/-- State of a 1-worker pool in which the worker has popped task 0 and is
about to invoke it; used as the C4 witness for in-flight completion. -/
def sC4w : Sys :=
  { queue := []
    nextId := 1
    workers := [{ pc := WPC.running, held := some 0, flag := false, detached := false, wid := 0 }]
    pool := [0]
    idle := 0
    doneFlag := false
    stopFlag := false
    handles := [HState.pending]
    executed := []
    discarded := []
    ctrl := Ctrl.ready [] }

/-- State of a 2-worker pool after both workers parked idle and a resize to
1 then detached the second worker and truncated the collections: the idle
counter still counts both parked workers, so IdleThreadsCount() = 2 exceeds
ThreadsCount() = 1. -/
def sC5 : Sys :=
  { queue := []
    nextId := 0
    workers := [{ pc := WPC.parked, held := none, flag := false, detached := false, wid := 0 },
                { pc := WPC.parked, held := none, flag := true, detached := true, wid := 1 }]
    pool := [0]
    idle := 2
    doneFlag := false
    stopFlag := false
    handles := []
    executed := []
    discarded := []
    ctrl := Ctrl.ready [] }

/-- State of a 1-worker pool after resize(0) entered the shrink loop,
processed slot 0, wrapped its unsigned counter from 0 to 4294967295 and
then indexed _threadsStopFlags out of bounds: undefined behaviour instead
of a completed shrink. -/
def sC6 : Sys :=
  { queue := []
    nextId := 0
    workers := [{ pc := WPC.popping, held := none, flag := true, detached := true, wid := 0 }]
    pool := [0]
    idle := 0
    doneFlag := false
    stopFlag := false
    handles := []
    executed := []
    discarded := []
    ctrl := Ctrl.crashed }

/-- State of a 1-worker pool after two Enqueues and the worker's execution
of both tasks under behC8: the first callable's raised failure was captured
into its handle, the worker survived it and ran the second task, whose
handle holds its value. -/
def sC8 : Sys :=
  { queue := []
    nextId := 2
    workers := [mkWorker 0]
    pool := [0]
    idle := 0
    doneFlag := false
    stopFlag := false
    handles := [HState.resolvedErr 7, HState.resolvedOk 42]
    executed := [0, 1]
    discarded := []
    ctrl := Ctrl.ready [] }

/-- State used as the C10 witness: the worker has just finished a task, its
own cancellation flag is set, and the queue is not empty. -/
def sC10w : Sys :=
  { queue := [5]
    nextId := 6
    workers := [{ pc := WPC.flagCheck, held := none, flag := true, detached := false, wid := 0 }]
    pool := [0]
    idle := 0
    doneFlag := false
    stopFlag := true
    handles := []
    executed := []
    discarded := []
    ctrl := Ctrl.ready [] }

/-- Structural invariant of every reachable pool state (for any script):
task occupancy (each created task id sits in exactly one of queue, worker
hand, execution history, discard history), handle bookkeeping, worker and
pool bookkeeping, and the progress facts about the controller's loop
counters that the lifecycle operations maintain. -/
structure InvS (s : Sys) : Prop where
  occ_eq : ∀ t, occ s t = if t < s.nextId then 1 else 0
  hlen : s.handles.length = s.nextId
  held_run : ∀ w ∈ s.workers, w.held ≠ none → w.pc = WPC.running
  idle_eq : s.idle = (parkedCount s : Int)
  pool_lt : ∀ j ∈ s.pool, j < s.workers.length
  off_pool : ∀ j wt, s.workers[j]? = some wt → j ∉ s.pool →
    wt.detached = true ∨ wt.pc = WPC.terminated
  pool_bound : s.pool.length < 4294967296
  shrink_lt : ∀ i n rest, s.ctrl = Ctrl.resizeShrink i n rest → i < 4294967296
  shrink_ph : ∀ i n rest, s.ctrl = Ctrl.resizeShrink i n rest →
    ∀ k j wt, i < k → s.pool[k]? = some j → s.workers[j]? = some wt →
      wt.detached = true
  join_ph : ∀ i rest, s.ctrl = Ctrl.stopJoin i rest →
    ∀ k j wt, k < i → s.pool[k]? = some j → s.workers[j]? = some wt →
      wt.detached = true ∨ wt.pc = WPC.terminated
  post_join : ∀ rest, s.ctrl = Ctrl.stopDiscard2 rest ∨ s.ctrl = Ctrl.stopClear rest →
    ∀ j wt, j ∈ s.pool → s.workers[j]? = some wt →
      wt.detached = true ∨ wt.pc = WPC.terminated
  exec_res : ∀ t ∈ s.executed, ∃ hs, s.handles[t]? = some hs ∧
    hs ≠ HState.pending ∧ hs ≠ HState.broken
  disc_res : ∀ t ∈ s.discarded, s.handles[t]? = some HState.broken
  grow_bound : ∀ n rest, s.ctrl = Ctrl.resizeGrow n rest → n < 4294967296

theorem PopTask_eq_some {q : List Nat} {t : Nat} {r : List Nat} :
    PopTask q = some (t, r) ↔ q = t :: r := by
  cases q <;> simp [PopTask]

theorem countP_set_some {α : Type} {l : List α} {i : Nat} {b : α}
    (h : l[i]? = some b) (a : α) (p : α → Bool) :
    (l.set i a).countP p + (if p b then 1 else 0)
      = l.countP p + (if p a then 1 else 0) := by
  induction l generalizing i with
  | nil => simp at h
  | cons x xs ih =>
    cases i with
    | zero =>
      simp only [List.getElem?_cons_zero, Option.some.injEq] at h
      subst h
      simp only [List.set_cons_zero, List.countP_cons]
      omega
    | succ k =>
      simp only [List.getElem?_cons_succ] at h
      have hk := ih h
      simp only [List.set_cons_succ, List.countP_cons]
      omega

theorem countP_le_of_pos {α : Type} (l : List α) (S : List Nat) (p d : α → Bool)
    (h : ∀ j x, l[j]? = some x → p x = true → d x = true ∨ j ∈ S) :
    l.countP p ≤ l.countP d + S.length := by
  induction l generalizing S with
  | nil => simp
  | cons x xs ih =>
    have htail : ∀ j y, xs[j]? = some y → p y = true →
        d y = true ∨ j ∈ (S.filter (fun m => m != 0)).map (fun m => m - 1) := by
      intro j y hj hp
      rcases h (j + 1) y (by simpa using hj) hp with hd | hS
      · exact Or.inl hd
      · right
        exact List.mem_map.mpr ⟨j + 1, List.mem_filter.mpr ⟨hS, by simp⟩, rfl⟩
    have ihx := ih ((S.filter (fun m => m != 0)).map (fun m => m - 1)) htail
    have hlenS : ((S.filter (fun m => m != 0)).map (fun m => m - 1)).length
        ≤ S.length := by
      rw [List.length_map]
      exact List.length_filter_le _ _
    by_cases hpx : p x = true
    · rcases h 0 x (by simp) hpx with hdx | h0S
      · simp only [List.countP_cons, hpx, hdx, if_true]
        omega
      · have hdrop : ((S.filter (fun m => m != 0)).map (fun m => m - 1)).length
            < S.length := by
          rw [List.length_map]
          exact List.length_filter_lt_length_iff_exists.mpr ⟨0, h0S, by simp⟩
        simp only [List.countP_cons, hpx, if_true]
        omega
    · simp only [List.countP_cons]
      rw [if_neg hpx]
      omega

theorem countP_set_same {α : Type} {l : List α} {i : Nat} {b : α}
    (h : l[i]? = some b) (a : α) (p : α → Bool) (hab : p a = p b) :
    (l.set i a).countP p = l.countP p := by
  have hcs := countP_set_some h a p
  rw [hab] at hcs
  omega

theorem countP_set_incr {α : Type} {l : List α} {i : Nat} {b : α}
    (h : l[i]? = some b) (a : α) (p : α → Bool)
    (hb : p b = false) (ha : p a = true) :
    (l.set i a).countP p = l.countP p + 1 := by
  have hcs := countP_set_some h a p
  rw [hb, ha] at hcs
  simp at hcs
  omega

theorem countP_set_decr {α : Type} {l : List α} {i : Nat} {b : α}
    (h : l[i]? = some b) (a : α) (p : α → Bool)
    (hb : p b = true) (ha : p a = false) :
    (l.set i a).countP p + 1 = l.countP p := by
  have hcs := countP_set_some h a p
  rw [hb, ha] at hcs
  simp at hcs
  omega

theorem getElem?_set_cases {α : Type} {l : List α} {w : Nat} {a : α} {j : Nat} {x : α}
    (h : (l.set w a)[j]? = some x) :
    (j ≠ w ∧ l[j]? = some x) ∨ (j = w ∧ x = a) := by
  by_cases hjw : j = w
  · subst hjw
    by_cases hlt : j < l.length
    · rw [List.getElem?_set_self hlt] at h
      exact Or.inr ⟨rfl, (Option.some.injEq a x).mp h |>.symm⟩
    · exfalso
      have hlen : (l.set j a).length = l.length := List.length_set l j a
      have : (l.set j a)[j]? = none := by
        apply List.getElem?_eq_none
        omega
      rw [this] at h
      exact Option.noConfusion h
  · exact Or.inl ⟨hjw, by rwa [List.getElem?_set_ne (fun he => hjw he.symm)] at h⟩

theorem lt_length_of_getElem? {α : Type} {l : List α} {i : Nat} {x : α}
    (h : l[i]? = some x) : i < l.length := by
  rcases List.getElem?_eq_some.mp h with ⟨hlt, _⟩
  exact hlt

/-- Transfer of the detached-or-terminated property across a worker
update. -/
theorem pres_of_keep {wt nwt : WorkerT} (hdet : nwt.detached = wt.detached)
    (hterm : wt.pc = WPC.terminated → nwt.pc = WPC.terminated) :
    wt.detached = true ∨ wt.pc = WPC.terminated →
    nwt.detached = true ∨ nwt.pc = WPC.terminated := by
  intro h
  rcases h with hd | ht
  · exact Or.inl (hdet ▸ hd)
  · exact Or.inr (hterm ht)

theorem off_pool_set {s : Sys} {w : Nat} {wt : WorkerT}
    (hw : s.workers[w]? = some wt) (nwt : WorkerT)
    (hpres : wt.detached = true ∨ wt.pc = WPC.terminated →
             nwt.detached = true ∨ nwt.pc = WPC.terminated) (iv : InvS s) :
    ∀ j wt', (s.workers.set w nwt)[j]? = some wt' → j ∉ s.pool →
      wt'.detached = true ∨ wt'.pc = WPC.terminated := by
  intro j wt' hj hnp
  rcases getElem?_set_cases hj with ⟨_, hj'⟩ | ⟨rfl, rfl⟩
  · exact iv.off_pool j wt' hj' hnp
  · exact hpres (iv.off_pool j wt hw hnp)

theorem shrink_ph_set {s : Sys} {w : Nat} {wt : WorkerT}
    (hw : s.workers[w]? = some wt) (nwt : WorkerT)
    (hdet : wt.detached = true → nwt.detached = true) (iv : InvS s) :
    ∀ i n rest, s.ctrl = Ctrl.resizeShrink i n rest →
      ∀ k j wt', i < k → s.pool[k]? = some j →
        (s.workers.set w nwt)[j]? = some wt' → wt'.detached = true := by
  intro i n rest hc k j wt' hk hpk hj
  rcases getElem?_set_cases hj with ⟨_, hj'⟩ | ⟨rfl, rfl⟩
  · exact iv.shrink_ph i n rest hc k j wt' hk hpk hj'
  · exact hdet (iv.shrink_ph i n rest hc k j wt hk hpk hw)

theorem join_ph_set {s : Sys} {w : Nat} {wt : WorkerT}
    (hw : s.workers[w]? = some wt) (nwt : WorkerT)
    (hpres : wt.detached = true ∨ wt.pc = WPC.terminated →
             nwt.detached = true ∨ nwt.pc = WPC.terminated) (iv : InvS s) :
    ∀ i rest, s.ctrl = Ctrl.stopJoin i rest →
      ∀ k j wt', k < i → s.pool[k]? = some j →
        (s.workers.set w nwt)[j]? = some wt' →
          wt'.detached = true ∨ wt'.pc = WPC.terminated := by
  intro i rest hc k j wt' hk hpk hj
  rcases getElem?_set_cases hj with ⟨_, hj'⟩ | ⟨rfl, rfl⟩
  · exact iv.join_ph i rest hc k j wt' hk hpk hj'
  · exact hpres (iv.join_ph i rest hc k j wt hk hpk hw)

theorem post_join_set {s : Sys} {w : Nat} {wt : WorkerT}
    (hw : s.workers[w]? = some wt) (nwt : WorkerT)
    (hpres : wt.detached = true ∨ wt.pc = WPC.terminated →
             nwt.detached = true ∨ nwt.pc = WPC.terminated) (iv : InvS s) :
    ∀ rest, s.ctrl = Ctrl.stopDiscard2 rest ∨ s.ctrl = Ctrl.stopClear rest →
      ∀ j wt', j ∈ s.pool → (s.workers.set w nwt)[j]? = some wt' →
        wt'.detached = true ∨ wt'.pc = WPC.terminated := by
  intro rest hc j wt' hjp hj
  rcases getElem?_set_cases hj with ⟨_, hj'⟩ | ⟨rfl, rfl⟩
  · exact iv.post_join rest hc j wt' hjp hj'
  · exact hpres (iv.post_join rest hc j wt hjp hw)

theorem held_run_set {s : Sys} {w : Nat} (nwt : WorkerT)
    (hn : nwt.held ≠ none → nwt.pc = WPC.running) (iv : InvS s) :
    ∀ x ∈ s.workers.set w nwt, x.held ≠ none → x.pc = WPC.running := by
  intro x hx hnone
  rcases List.mem_or_eq_of_mem_set hx with hx' | rfl
  · exact iv.held_run x hx' hnone
  · exact hn hnone

/-- A worker whose pc is not running holds no task. -/
theorem held_none_of_pc {s : Sys} {wt : WorkerT} (hmem : wt ∈ s.workers)
    (hne : wt.pc ≠ WPC.running) (iv : InvS s) : wt.held = none := by
  cases hh : wt.held with
  | none => rfl
  | some u =>
    exact absurd (iv.held_run wt hmem (by simp [hh])) hne

/-- A held task was created, and appears nowhere else. -/
theorem held_occ {s : Sys} {w : Nat} {wt : WorkerT} {t : Nat}
    (hw : s.workers[w]? = some wt) (hh : wt.held = some t) (iv : InvS s) :
    t < s.nextId ∧ s.executed.count t = 0 ∧ s.discarded.count t = 0
      ∧ s.queue.count t = 0 := by
  have hp : 0 < heldCount s t := by
    apply List.countP_pos_iff.mpr
    exact ⟨wt, List.getElem?_mem hw, by simp [hh]⟩
  have h1 := iv.occ_eq t
  simp only [occ] at h1
  by_cases hlt : t < s.nextId
  · rw [if_pos hlt] at h1
    exact ⟨hlt, by omega, by omega, by omega⟩
  · rw [if_neg hlt] at h1
    omega

/-- A queued task was created, and appears nowhere else. -/
theorem queued_occ {s : Sys} {t : Nat} (hq : 0 < s.queue.count t) (iv : InvS s) :
    t < s.nextId ∧ s.executed.count t = 0 ∧ s.discarded.count t = 0 := by
  have h1 := iv.occ_eq t
  simp only [occ] at h1
  by_cases hlt : t < s.nextId
  · rw [if_pos hlt] at h1
    exact ⟨hlt, by omega, by omega⟩
  · rw [if_neg hlt] at h1
    omega

theorem inv_popOk {s : Sys} {w : Nat} {wt : WorkerT}
    {t : Nat} {q' : List Nat}
    (hw : s.workers[w]? = some wt) (hpc : wt.pc = WPC.popping)
    (hq : PopTask s.queue = some (t, q')) (iv : InvS s) :
    InvS { s with queue := q'
                  workers := s.workers.set w
                    { wt with pc := WPC.running, held := some t } } := by
  have hqueue : s.queue = t :: q' := PopTask_eq_some.mp hq
  have hmem : wt ∈ s.workers := List.getElem?_mem hw
  have hheld : wt.held = none :=
    held_none_of_pc hmem (by rw [hpc]; exact fun h => WPC.noConfusion h) iv
  have hpres := @pres_of_keep wt ({ wt with pc := WPC.running, held := some t })
    rfl (fun ht => absurd (hpc.symm.trans ht) (by simp))
  refine ⟨?_, iv.hlen, ?_, ?_, ?_, off_pool_set hw _ hpres iv, iv.pool_bound,
    iv.shrink_lt, shrink_ph_set hw _ (fun h => h) iv, join_ph_set hw _ hpres iv,
    post_join_set hw _ hpres iv, iv.exec_res, iv.disc_res, iv.grow_bound⟩
  · intro u
    have hcs := countP_set_some hw { wt with pc := WPC.running, held := some t }
      (fun x => x.held == some u)
    have hold := iv.occ_eq u
    simp only [occ, heldCount] at hold ⊢
    rw [hqueue] at hold
    simp [hheld] at hcs
    simp [List.count_cons] at hold
    omega
  · exact held_run_set _ (fun _ => rfl) iv
  · have hsame := countP_set_same hw { wt with pc := WPC.running, held := some t }
      (fun x => x.pc == WPC.parked) (by beta_reduce; rw [hpc]; rfl)
    have hidle := iv.idle_eq
    simp only [parkedCount] at *
    rw [hsame]
    exact hidle
  · intro j hj
    have := iv.pool_lt j hj
    simpa using this

theorem inv_popEmpty {s : Sys} {w : Nat} {wt : WorkerT}
    (hw : s.workers[w]? = some wt) (hpc : wt.pc = WPC.popping)
    (iv : InvS s) :
    InvS { s with idle := s.idle + 1
                  workers := s.workers.set w { wt with pc := WPC.parked } } := by
  have hmem : wt ∈ s.workers := List.getElem?_mem hw
  have hheld : wt.held = none :=
    held_none_of_pc hmem (by rw [hpc]; exact fun h => WPC.noConfusion h) iv
  have hpres := @pres_of_keep wt ({ wt with pc := WPC.parked })
    rfl (fun ht => absurd (hpc.symm.trans ht) (by simp))
  refine ⟨?_, iv.hlen, ?_, ?_, ?_, off_pool_set hw _ hpres iv, iv.pool_bound,
    iv.shrink_lt, shrink_ph_set hw _ (fun h => h) iv, join_ph_set hw _ hpres iv,
    post_join_set hw _ hpres iv, iv.exec_res, iv.disc_res, iv.grow_bound⟩
  · intro u
    have hcs := countP_set_same hw { wt with pc := WPC.parked }
      (fun x => x.held == some u) rfl
    have hold := iv.occ_eq u
    simp only [occ, heldCount] at hold ⊢
    rw [hcs]
    exact hold
  · exact held_run_set _
      (fun hx => (hx hheld).elim) iv
  · have hincr := countP_set_incr hw { wt with pc := WPC.parked }
      (fun x => x.pc == WPC.parked) (by beta_reduce; rw [hpc]; rfl) rfl
    have hidle := iv.idle_eq
    simp only [parkedCount] at *
    rw [hincr]
    push_cast
    omega
  · intro j hj
    have := iv.pool_lt j hj
    simpa using this

theorem inv_execTask {beh : Nat → Nat → TOut} {s : Sys} {w : Nat} {wt : WorkerT}
    {t : Nat}
    (hw : s.workers[w]? = some wt) (hpc : wt.pc = WPC.running)
    (hh : wt.held = some t) (iv : InvS s) :
    InvS { s with handles := s.handles.set t (toH (beh t wt.wid))
                  executed := s.executed ++ [t]
                  workers := s.workers.set w
                    { wt with pc := WPC.flagCheck, held := none } } := by
  obtain ⟨hlt, hexecz, hdiscz, _⟩ := held_occ hw hh iv
  have hpres := @pres_of_keep wt ({ wt with pc := WPC.flagCheck, held := none })
    rfl (fun ht => absurd (hpc.symm.trans ht) (by simp))
  have hlenh : t < s.handles.length := by
    rw [iv.hlen]
    exact hlt
  refine ⟨?_, ?_, ?_, ?_, ?_, off_pool_set hw _ hpres iv, iv.pool_bound,
    iv.shrink_lt, shrink_ph_set hw _ (fun h => h) iv, join_ph_set hw _ hpres iv,
    post_join_set hw _ hpres iv, ?_, ?_, iv.grow_bound⟩
  · intro u
    have hold := iv.occ_eq u
    obtain ⟨_, _, _, hqz⟩ := held_occ hw hh iv
    simp only [occ, heldCount] at hold ⊢
    rw [List.count_append]
    by_cases hut : u = t
    · subst hut
      have hdecr := countP_set_decr hw { wt with pc := WPC.flagCheck, held := none }
        (fun x => x.held == some u) (by beta_reduce; rw [hh]; simp) rfl
      have hcu : List.count u [u] = 1 := by simp
      rw [hcu]
      rw [if_pos hlt] at hold ⊢
      omega
    · have hsame := countP_set_same hw { wt with pc := WPC.flagCheck, held := none }
        (fun x => x.held == some u)
        (by
          beta_reduce
          rw [hh]
          have h2 : (some t == some u) = (t == u) := rfl
          rw [h2, beq_eq_false_iff_ne.mpr (Ne.symm hut)]
          rfl)
      have hcu : List.count u [t] = 0 := by
        simp [List.count_singleton', Ne.symm hut]
      rw [hcu, hsame]
      omega
  · simpa using iv.hlen
  · exact held_run_set _ (fun hx => (hx rfl).elim) iv
  · have hsame := countP_set_same hw { wt with pc := WPC.flagCheck, held := none }
      (fun x => x.pc == WPC.parked) (by beta_reduce; rw [hpc]; rfl)
    have hidle := iv.idle_eq
    simp only [parkedCount] at *
    rw [hsame]
    exact hidle
  · intro j hj
    have := iv.pool_lt j hj
    simpa using this
  · intro u hu
    rcases List.mem_append.mp hu with hu' | hu'
    · have hne : u ≠ t := by
        intro he
        subst he
        exact absurd hu' (List.count_eq_zero.mp hexecz)
      obtain ⟨hs, hget, hnp, hnb⟩ := iv.exec_res u hu'
      exact ⟨hs, by rwa [List.getElem?_set_ne (fun he => hne he.symm)], hnp, hnb⟩
    · have hut : u = t := by simpa using hu'
      subst hut
      refine ⟨toH (beh u wt.wid), by rw [List.getElem?_set_self hlenh], ?_, ?_⟩
      · cases beh u wt.wid <;> simp [toH]
      · cases beh u wt.wid <;> simp [toH]
  · intro u hu
    have hne : u ≠ t := by
      intro he
      subst he
      exact absurd hu (List.count_eq_zero.mp hdiscz)
    have := iv.disc_res u hu
    rwa [List.getElem?_set_ne (fun he => hne he.symm)]

theorem inv_flagExit {s : Sys} {w : Nat} {wt : WorkerT}
    (hw : s.workers[w]? = some wt) (hpc : wt.pc = WPC.flagCheck)
    (iv : InvS s) :
    InvS { s with workers := s.workers.set w { wt with pc := WPC.terminated } } := by
  have hmem : wt ∈ s.workers := List.getElem?_mem hw
  have hheld : wt.held = none :=
    held_none_of_pc hmem (by rw [hpc]; exact fun h => WPC.noConfusion h) iv
  have hpres := @pres_of_keep wt ({ wt with pc := WPC.terminated })
    rfl (fun _ => rfl)
  refine ⟨?_, iv.hlen, ?_, ?_, ?_, off_pool_set hw _ hpres iv, iv.pool_bound,
    iv.shrink_lt, shrink_ph_set hw _ (fun h => h) iv, join_ph_set hw _ hpres iv,
    post_join_set hw _ hpres iv, iv.exec_res, iv.disc_res, iv.grow_bound⟩
  · intro u
    have hcs := countP_set_same hw { wt with pc := WPC.terminated }
      (fun x => x.held == some u) rfl
    have hold := iv.occ_eq u
    simp only [occ, heldCount] at hold ⊢
    rw [hcs]
    exact hold
  · exact held_run_set _
      (fun hx => (hx hheld).elim) iv
  · have hsame := countP_set_same hw { wt with pc := WPC.terminated }
      (fun x => x.pc == WPC.parked) (by beta_reduce; rw [hpc]; rfl)
    have hidle := iv.idle_eq
    simp only [parkedCount] at *
    rw [hsame]
    exact hidle
  · intro j hj
    have := iv.pool_lt j hj
    simpa using this

theorem inv_flagCont {s : Sys} {w : Nat} {wt : WorkerT}
    (hw : s.workers[w]? = some wt) (hpc : wt.pc = WPC.flagCheck)
    (iv : InvS s) :
    InvS { s with workers := s.workers.set w { wt with pc := WPC.popping } } := by
  have hmem : wt ∈ s.workers := List.getElem?_mem hw
  have hheld : wt.held = none :=
    held_none_of_pc hmem (by rw [hpc]; exact fun h => WPC.noConfusion h) iv
  have hpres := @pres_of_keep wt ({ wt with pc := WPC.popping })
    rfl (fun ht => absurd (hpc.symm.trans ht) (by simp))
  refine ⟨?_, iv.hlen, ?_, ?_, ?_, off_pool_set hw _ hpres iv, iv.pool_bound,
    iv.shrink_lt, shrink_ph_set hw _ (fun h => h) iv, join_ph_set hw _ hpres iv,
    post_join_set hw _ hpres iv, iv.exec_res, iv.disc_res, iv.grow_bound⟩
  · intro u
    have hcs := countP_set_same hw { wt with pc := WPC.popping }
      (fun x => x.held == some u) rfl
    have hold := iv.occ_eq u
    simp only [occ, heldCount] at hold ⊢
    rw [hcs]
    exact hold
  · exact held_run_set _
      (fun hx => (hx hheld).elim) iv
  · have hsame := countP_set_same hw { wt with pc := WPC.popping }
      (fun x => x.pc == WPC.parked) (by beta_reduce; rw [hpc]; rfl)
    have hidle := iv.idle_eq
    simp only [parkedCount] at *
    rw [hsame]
    exact hidle
  · intro j hj
    have := iv.pool_lt j hj
    simpa using this

theorem inv_wakePop {s : Sys} {w : Nat} {wt : WorkerT} {t : Nat} {q' : List Nat}
    (hw : s.workers[w]? = some wt) (hpc : wt.pc = WPC.parked)
    (hq : PopTask s.queue = some (t, q')) (iv : InvS s) :
    InvS { s with queue := q'
                  idle := s.idle - 1
                  workers := s.workers.set w
                    { wt with pc := WPC.running, held := some t } } := by
  have hqueue : s.queue = t :: q' := PopTask_eq_some.mp hq
  have hmem : wt ∈ s.workers := List.getElem?_mem hw
  have hheld : wt.held = none :=
    held_none_of_pc hmem (by rw [hpc]; exact fun h => WPC.noConfusion h) iv
  have hpres := @pres_of_keep wt ({ wt with pc := WPC.running, held := some t })
    rfl (fun ht => absurd (hpc.symm.trans ht) (by simp))
  refine ⟨?_, iv.hlen, ?_, ?_, ?_, off_pool_set hw _ hpres iv, iv.pool_bound,
    iv.shrink_lt, shrink_ph_set hw _ (fun h => h) iv, join_ph_set hw _ hpres iv,
    post_join_set hw _ hpres iv, iv.exec_res, iv.disc_res, iv.grow_bound⟩
  · intro u
    have hcs := countP_set_some hw { wt with pc := WPC.running, held := some t }
      (fun x => x.held == some u)
    have hold := iv.occ_eq u
    simp only [occ, heldCount] at hold ⊢
    rw [hqueue] at hold
    simp [hheld] at hcs
    simp [List.count_cons] at hold
    omega
  · exact held_run_set _ (fun _ => rfl) iv
  · have hdecr := countP_set_decr hw { wt with pc := WPC.running, held := some t }
      (fun x => x.pc == WPC.parked) (by beta_reduce; rw [hpc]; rfl) rfl
    have hidle := iv.idle_eq
    simp only [parkedCount] at *
    omega
  · intro j hj
    have := iv.pool_lt j hj
    simpa using this

theorem inv_wakeExit {s : Sys} {w : Nat} {wt : WorkerT}
    (hw : s.workers[w]? = some wt) (hpc : wt.pc = WPC.parked)
    (iv : InvS s) :
    InvS { s with idle := s.idle - 1
                  workers := s.workers.set w { wt with pc := WPC.terminated } } := by
  have hmem : wt ∈ s.workers := List.getElem?_mem hw
  have hheld : wt.held = none :=
    held_none_of_pc hmem (by rw [hpc]; exact fun h => WPC.noConfusion h) iv
  have hpres := @pres_of_keep wt ({ wt with pc := WPC.terminated })
    rfl (fun _ => rfl)
  refine ⟨?_, iv.hlen, ?_, ?_, ?_, off_pool_set hw _ hpres iv, iv.pool_bound,
    iv.shrink_lt, shrink_ph_set hw _ (fun h => h) iv, join_ph_set hw _ hpres iv,
    post_join_set hw _ hpres iv, iv.exec_res, iv.disc_res, iv.grow_bound⟩
  · intro u
    have hcs := countP_set_same hw { wt with pc := WPC.terminated }
      (fun x => x.held == some u) rfl
    have hold := iv.occ_eq u
    simp only [occ, heldCount] at hold ⊢
    rw [hcs]
    exact hold
  · exact held_run_set _
      (fun hx => (hx hheld).elim) iv
  · have hdecr := countP_set_decr hw { wt with pc := WPC.terminated }
      (fun x => x.pc == WPC.parked) (by beta_reduce; rw [hpc]; rfl) rfl
    have hidle := iv.idle_eq
    simp only [parkedCount] at *
    omega
  · intro j hj
    have := iv.pool_lt j hj
    simpa using this

/-- Invariant transfer to a controller state with no phase obligations. -/
theorem inv_ctrl_vac {s : Sys} (c : Ctrl) (iv : InvS s)
    (hA : ∀ i n rest, c ≠ Ctrl.resizeShrink i n rest)
    (hB : ∀ i rest, c = Ctrl.stopJoin i rest → i = 0)
    (hC : ∀ rest, c ≠ Ctrl.stopDiscard2 rest)
    (hD : ∀ rest, c ≠ Ctrl.stopClear rest)
    (hE : ∀ n rest, c = Ctrl.resizeGrow n rest → n < 4294967296) :
    InvS { s with ctrl := c } := by
  refine ⟨iv.occ_eq, iv.hlen, iv.held_run, iv.idle_eq, iv.pool_lt, iv.off_pool,
    iv.pool_bound, ?_, ?_, ?_, ?_, iv.exec_res, iv.disc_res, hE⟩
  · intro i n rest hc
    exact absurd hc (hA i n rest)
  · intro i n rest hc
    exact absurd hc (hA i n rest)
  · intro i rest hc k j wt hk
    rw [hB i rest hc] at hk
    exact absurd hk (by omega)
  · intro rest hc
    rcases hc with hc | hc
    · exact absurd hc (hC rest)
    · exact absurd hc (hD rest)

/-- Invariant is insensitive to the two pool-wide flags. -/
theorem inv_flags {s : Sys} (d f : Bool) (iv : InvS s) :
    InvS { s with doneFlag := d, stopFlag := f } :=
  ⟨iv.occ_eq, iv.hlen, iv.held_run, iv.idle_eq, iv.pool_lt, iv.off_pool,
    iv.pool_bound, iv.shrink_lt, iv.shrink_ph, iv.join_ph, iv.post_join,
    iv.exec_res, iv.disc_res, iv.grow_bound⟩

theorem inv_enqueue {s : Sys} (rest : List Op) (iv : InvS s) :
    InvS { s with queue := PushTask s.queue s.nextId
                  handles := s.handles ++ [HState.pending]
                  nextId := s.nextId + 1
                  ctrl := Ctrl.ready rest } := by
  refine ⟨?_, ?_, iv.held_run, iv.idle_eq, iv.pool_lt, iv.off_pool,
    iv.pool_bound, ?_, ?_, ?_, ?_, ?_, ?_, ?_⟩
  · intro u
    have hold := iv.occ_eq u
    simp only [occ, heldCount, PushTask] at hold ⊢
    rw [List.count_append]
    by_cases hu : u = s.nextId
    · have hcu : List.count u [s.nextId] = 1 := by
        rw [hu]
        simp
      rw [if_neg (by omega)] at hold
      rw [if_pos (by omega)]
      omega
    · have hcu : List.count u [s.nextId] = 0 := by
        simp [List.count_singleton', Ne.symm hu]
      by_cases hlt : u < s.nextId
      · rw [if_pos hlt] at hold
        rw [if_pos (by omega)]
        omega
      · rw [if_neg hlt] at hold
        rw [if_neg (by omega)]
        omega
  · simp [iv.hlen]
  · intro i n rest' hc
    exact Ctrl.noConfusion hc
  · intro i n rest' hc
    exact Ctrl.noConfusion hc
  · intro i rest' hc
    exact Ctrl.noConfusion hc
  · intro rest' hc
    rcases hc with hc | hc <;> exact Ctrl.noConfusion hc
  · intro u hu
    obtain ⟨hs, hget, hnp, hnb⟩ := iv.exec_res u hu
    refine ⟨hs, ?_, hnp, hnb⟩
    rw [List.getElem?_append_left (lt_length_of_getElem? hget)]
    exact hget
  · intro u hu
    have hget := iv.disc_res u hu
    rw [List.getElem?_append_left (lt_length_of_getElem? hget)]
    exact hget
  · intro n rest' hc
    exact Ctrl.noConfusion hc

/-- Invariant preservation for the two ClearTasks pop-and-delete steps. -/
theorem inv_discard {s : Sys} {t : Nat} {q' : List Nat} (c : Ctrl)
    (hqueue : s.queue = t :: q') (iv : InvS s)
    (hA : ∀ i n rest, c ≠ Ctrl.resizeShrink i n rest)
    (hB : ∀ i rest, c ≠ Ctrl.stopJoin i rest)
    (hCD : ∀ rest, c = Ctrl.stopDiscard2 rest ∨ c = Ctrl.stopClear rest →
      s.ctrl = Ctrl.stopDiscard2 rest ∨ s.ctrl = Ctrl.stopClear rest)
    (hE : ∀ n rest, c ≠ Ctrl.resizeGrow n rest) :
    InvS { s with queue := q'
                  discarded := s.discarded ++ [t]
                  handles := s.handles.set t HState.broken
                  ctrl := c } := by
  have hq0 : 0 < s.queue.count t := by
    rw [hqueue]
    simp
  obtain ⟨hlt, hexecz, hdiscz⟩ := queued_occ hq0 iv
  have hlenh : t < s.handles.length := by
    rw [iv.hlen]
    exact hlt
  refine ⟨?_, ?_, iv.held_run, iv.idle_eq, iv.pool_lt, iv.off_pool,
    iv.pool_bound, ?_, ?_, ?_, ?_, ?_, ?_, ?_⟩
  · intro u
    have hold := iv.occ_eq u
    simp only [occ, heldCount] at hold ⊢
    rw [hqueue, List.count_cons] at hold
    rw [List.count_append, List.count_singleton']
    by_cases hut : t = u
    · have hbt : (t == u) = true := by
        subst hut
        exact beq_self_eq_true t
      rw [if_pos hbt] at hold
      rw [if_pos hut]
      have hun : u < s.nextId := by omega
      rw [if_pos hun] at hold ⊢
      omega
    · have hbe : (t == u) = false := beq_eq_false_iff_ne.mpr hut
      have hnbt : ¬((t == u) = true) := by simp [hbe]
      rw [if_neg hnbt] at hold
      rw [if_neg hut]
      omega
  · simpa using iv.hlen
  · intro i n rest hc
    exact absurd hc (hA i n rest)
  · intro i n rest hc
    exact absurd hc (hA i n rest)
  · intro i rest hc
    exact absurd hc (hB i rest)
  · intro rest hc j wt hjp hj
    exact iv.post_join rest (hCD rest hc) j wt hjp hj
  · intro u hu
    have hne : u ≠ t := by
      intro he
      subst he
      exact absurd hu (List.count_eq_zero.mp hexecz)
    obtain ⟨hs, hget, hnp, hnb⟩ := iv.exec_res u hu
    exact ⟨hs, by rwa [List.getElem?_set_ne (fun he => hne he.symm)], hnp, hnb⟩
  · intro u hu
    rcases List.mem_append.mp hu with hu' | hu'
    · by_cases hut : u = t
      · subst hut
        rw [List.getElem?_set_self hlenh]
      · have := iv.disc_res u hu'
        rwa [List.getElem?_set_ne (fun he => hut he.symm)]
    · have hut : u = t := by simpa using hu'
      subst hut
      rw [List.getElem?_set_self hlenh]
  · intro n rest hc
    exact absurd hc (hE n rest)

theorem inv_stopFlagStep {s : Sys} {i tc : Nat} {rest : List Op} {j : Nat}
    {wt : WorkerT}
    (_hc : s.ctrl = Ctrl.stopFlags i tc rest)
    (hj : s.workers[j]? = some wt) (iv : InvS s) :
    InvS { s with workers := s.workers.set j { wt with flag := true }
                  ctrl := Ctrl.stopFlags (i + 1) tc rest } := by
  have hmem : wt ∈ s.workers := List.getElem?_mem hj
  refine ⟨?_, iv.hlen, ?_, ?_, ?_, ?_, iv.pool_bound, ?_, ?_, ?_, ?_,
    iv.exec_res, iv.disc_res, ?_⟩
  · intro u
    have hcs := countP_set_same hj { wt with flag := true }
      (fun x => x.held == some u) rfl
    have hold := iv.occ_eq u
    simp only [occ, heldCount] at hold ⊢
    rw [hcs]
    exact hold
  · exact held_run_set _ (fun hx => iv.held_run wt hmem hx) iv
  · have hsame := countP_set_same hj { wt with flag := true }
      (fun x => x.pc == WPC.parked) rfl
    have hidle := iv.idle_eq
    simp only [parkedCount] at *
    rw [hsame]
    exact hidle
  · intro k hk
    have := iv.pool_lt k hk
    simpa using this
  · exact off_pool_set hj _ (pres_of_keep rfl (fun ht => ht)) iv
  · intro i' n' rest' hc'
    exact Ctrl.noConfusion hc'
  · intro i' n' rest' hc'
    exact Ctrl.noConfusion hc'
  · intro i' rest' hc'
    exact Ctrl.noConfusion hc'
  · intro rest' hc'
    rcases hc' with hc' | hc' <;> exact Ctrl.noConfusion hc'
  · intro n' rest' hc'
    exact Ctrl.noConfusion hc'

theorem inv_joinStep {s : Sys} {i : Nat} {rest : List Op} {j : Nat} {wt : WorkerT}
    (hc : s.ctrl = Ctrl.stopJoin i rest)
    (hp : s.pool[i]? = some j) (hj : s.workers[j]? = some wt)
    (hterm : wt.detached = true ∨ wt.pc = WPC.terminated) (iv : InvS s) :
    InvS { s with ctrl := Ctrl.stopJoin (i + 1) rest } := by
  refine ⟨iv.occ_eq, iv.hlen, iv.held_run, iv.idle_eq, iv.pool_lt, iv.off_pool,
    iv.pool_bound, ?_, ?_, ?_, ?_, iv.exec_res, iv.disc_res, ?_⟩
  · intro i' n' rest' hc'
    exact Ctrl.noConfusion hc'
  · intro i' n' rest' hc'
    exact Ctrl.noConfusion hc'
  · intro i' rest' hc' k j' wt' hk hpk hj'
    have hi' : i' = i + 1 := by
      injection hc' with h1 _
      exact h1.symm
    subst hi'
    by_cases hki : k = i
    · subst hki
      rw [hp] at hpk
      have hjj : j' = j := by
        injection hpk with h
        exact h.symm
      subst hjj
      rw [hj] at hj'
      have : wt' = wt := by
        injection hj' with h
        exact h.symm
      subst this
      exact hterm
    · exact iv.join_ph i rest hc k j' wt' (by omega) hpk hj'
  · intro rest' hc'
    rcases hc' with hc' | hc' <;> exact Ctrl.noConfusion hc'
  · intro n' rest' hc'
    exact Ctrl.noConfusion hc'

theorem inv_joinDone {s : Sys} {i : Nat} {rest : List Op}
    (hc : s.ctrl = Ctrl.stopJoin i rest) (hi : s.pool.length ≤ i) (iv : InvS s) :
    InvS { s with ctrl := Ctrl.stopDiscard2 rest } := by
  refine ⟨iv.occ_eq, iv.hlen, iv.held_run, iv.idle_eq, iv.pool_lt, iv.off_pool,
    iv.pool_bound, ?_, ?_, ?_, ?_, iv.exec_res, iv.disc_res, ?_⟩
  · intro i' n' rest' hc'
    exact Ctrl.noConfusion hc'
  · intro i' n' rest' hc'
    exact Ctrl.noConfusion hc'
  · intro i' rest' hc'
    exact Ctrl.noConfusion hc'
  · intro rest' hc' j wt hjp hj
    rcases List.mem_iff_getElem?.mp hjp with ⟨k, hk⟩
    have hklen : k < s.pool.length := lt_length_of_getElem? hk
    exact iv.join_ph i rest hc k j wt (by omega) hk hj
  · intro n' rest' hc'
    exact Ctrl.noConfusion hc'

theorem inv_discard2Done {s : Sys} {rest : List Op}
    (hc : s.ctrl = Ctrl.stopDiscard2 rest) (iv : InvS s) :
    InvS { s with ctrl := Ctrl.stopClear rest } := by
  refine ⟨iv.occ_eq, iv.hlen, iv.held_run, iv.idle_eq, iv.pool_lt, iv.off_pool,
    iv.pool_bound, ?_, ?_, ?_, ?_, iv.exec_res, iv.disc_res, ?_⟩
  · intro i' n' rest' hc'
    exact Ctrl.noConfusion hc'
  · intro i' n' rest' hc'
    exact Ctrl.noConfusion hc'
  · intro i' rest' hc'
    exact Ctrl.noConfusion hc'
  · intro rest' hc' j wt hjp hj
    exact iv.post_join rest (Or.inl hc) j wt hjp hj
  · intro n' rest' hc'
    exact Ctrl.noConfusion hc'

theorem inv_clearStep {s : Sys} {rest : List Op}
    (hc : s.ctrl = Ctrl.stopClear rest) (iv : InvS s) :
    InvS { s with pool := [], ctrl := Ctrl.ready rest } := by
  refine ⟨iv.occ_eq, iv.hlen, iv.held_run, iv.idle_eq, ?_, ?_, ?_, ?_, ?_, ?_, ?_,
    iv.exec_res, iv.disc_res, ?_⟩
  · intro j hj
    exact absurd hj (List.not_mem_nil j)
  · intro j wt hj _
    by_cases hjp : j ∈ s.pool
    · exact iv.post_join rest (Or.inr hc) j wt hjp hj
    · exact iv.off_pool j wt hj hjp
  · simp
  · intro i' n' rest' hc'
    exact Ctrl.noConfusion hc'
  · intro i' n' rest' hc'
    exact Ctrl.noConfusion hc'
  · intro i' rest' hc'
    exact Ctrl.noConfusion hc'
  · intro rest' hc'
    rcases hc' with hc' | hc' <;> exact Ctrl.noConfusion hc'
  · intro n' rest' hc'
    exact Ctrl.noConfusion hc'

theorem inv_growStep {s : Sys} {n : Nat} {rest : List Op}
    (hc : s.ctrl = Ctrl.resizeGrow n rest) (hlt : s.pool.length < n)
    (iv : InvS s) :
    InvS { s with workers := s.workers ++ [mkWorker s.pool.length]
                  pool := s.pool ++ [s.workers.length]
                  ctrl := Ctrl.resizeGrow n rest } := by
  have hn : n < 4294967296 := iv.grow_bound n rest hc
  refine ⟨?_, iv.hlen, ?_, ?_, ?_, ?_, ?_, ?_, ?_, ?_, ?_,
    iv.exec_res, iv.disc_res, ?_⟩
  · intro u
    have hold := iv.occ_eq u
    simp only [occ, heldCount] at hold ⊢
    rw [List.countP_append]
    have : List.countP (fun x => x.held == some u) [mkWorker s.pool.length] = 0 := by
      simp [mkWorker]
    omega
  · intro x hx hnone
    rcases List.mem_append.mp hx with hx' | hx'
    · exact iv.held_run x hx' hnone
    · have : x = mkWorker s.pool.length := by simpa using hx'
      subst this
      exact absurd rfl hnone
  · have hidle := iv.idle_eq
    simp only [parkedCount] at *
    rw [List.countP_append]
    have : List.countP (fun x => x.pc == WPC.parked) [mkWorker s.pool.length] = 0 := by
      simp [mkWorker]
    omega
  · intro j hj
    rcases List.mem_append.mp hj with hj' | hj'
    · have := iv.pool_lt j hj'
      simp only [List.length_append, List.length_cons, List.length_nil]
      omega
    · have : j = s.workers.length := by simpa using hj'
      subst this
      simp only [List.length_append, List.length_cons, List.length_nil]
      omega
  · intro j wt hj hnp
    have hnp1 : j ∉ s.pool := fun hin => hnp (List.mem_append.mpr (Or.inl hin))
    have hnp2 : j ≠ s.workers.length := by
      intro he
      exact hnp (List.mem_append.mpr (Or.inr (by simp [he])))
    have hjl : j < s.workers.length + 1 := by
      have := lt_length_of_getElem? hj
      simpa using this
    have hjl2 : j < s.workers.length := by omega
    rw [List.getElem?_append_left hjl2] at hj
    exact iv.off_pool j wt hj hnp1
  · have := iv.pool_bound
    simp only [List.length_append, List.length_cons, List.length_nil]
    omega
  · intro i' n' rest' hc'
    exact Ctrl.noConfusion hc'
  · intro i' n' rest' hc'
    exact Ctrl.noConfusion hc'
  · intro i' rest' hc'
    exact Ctrl.noConfusion hc'
  · intro rest' hc'
    rcases hc' with hc' | hc' <;> exact Ctrl.noConfusion hc'
  · intro n' rest' hc'
    have : n' = n := by
      injection hc' with h _
      exact h.symm
    subst this
    exact hn

theorem inv_resizeShrinkStart {s : Sys} {n : Nat} {rest : List Op}
    (hlt : n < s.pool.length) (iv : InvS s) :
    InvS { s with ctrl := Ctrl.resizeShrink (s.pool.length - 1) n rest } := by
  refine ⟨iv.occ_eq, iv.hlen, iv.held_run, iv.idle_eq, iv.pool_lt, iv.off_pool,
    iv.pool_bound, ?_, ?_, ?_, ?_, iv.exec_res, iv.disc_res, ?_⟩
  · intro i' n' rest' hc'
    have : i' = s.pool.length - 1 := by
      injection hc' with h _
      exact h.symm
    subst this
    have h2 := iv.pool_bound
    show s.pool.length - 1 < 4294967296
    omega
  · intro i' n' rest' hc' k j wt hk hpk
    have hi' : i' = s.pool.length - 1 := by
      injection hc' with h _
      exact h.symm
    subst hi'
    have hklen : k < s.pool.length := lt_length_of_getElem? hpk
    omega
  · intro i' rest' hc'
    exact Ctrl.noConfusion hc'
  · intro rest' hc'
    rcases hc' with hc' | hc' <;> exact Ctrl.noConfusion hc'
  · intro n' rest' hc'
    exact Ctrl.noConfusion hc'

theorem resizeShrink_inj {i n i' n' : Nat} {r r' : List Op}
    (h : Ctrl.resizeShrink i n r = Ctrl.resizeShrink i' n' r') :
    i = i' ∧ n = n' ∧ r = r' := by
  injection h with h1 h2 h3
  exact ⟨h1, h2, h3⟩

theorem inv_shrinkStep {s : Sys} {i n : Nat} {rest : List Op} {j : Nat}
    {wt : WorkerT}
    (hc : s.ctrl = Ctrl.resizeShrink i n rest)
    (hp : s.pool[i]? = some j) (hj : s.workers[j]? = some wt) (iv : InvS s) :
    InvS { s with workers := s.workers.set j
                    { wt with flag := true, detached := true }
                  ctrl := Ctrl.resizeShrink (udec i) n rest } := by
  have hmem : wt ∈ s.workers := List.getElem?_mem hj
  have hilt : i < 4294967296 := iv.shrink_lt i n rest hc
  have hiplen : i < s.pool.length := lt_length_of_getElem? hp
  refine ⟨?_, iv.hlen, ?_, ?_, ?_, ?_, iv.pool_bound, ?_, ?_, ?_, ?_,
    iv.exec_res, iv.disc_res, ?_⟩
  · intro u
    have hcs := countP_set_same hj { wt with flag := true, detached := true }
      (fun x => x.held == some u) rfl
    have hold := iv.occ_eq u
    simp only [occ, heldCount] at hold ⊢
    rw [hcs]
    exact hold
  · exact held_run_set _ (fun hx => iv.held_run wt hmem hx) iv
  · have hsame := countP_set_same hj { wt with flag := true, detached := true }
      (fun x => x.pc == WPC.parked) rfl
    have hidle := iv.idle_eq
    simp only [parkedCount] at *
    rw [hsame]
    exact hidle
  · intro k hk
    have := iv.pool_lt k hk
    simpa using this
  · exact off_pool_set hj _ (fun _ => Or.inl rfl) iv
  · intro i' n' rest' hc'
    obtain ⟨h1, _, _⟩ := resizeShrink_inj hc'
    rw [← h1]
    show (i + 4294967295) % 4294967296 < 4294967296
    omega
  · intro i' n' rest' hc' k j' wt' hk hpk hj'
    obtain ⟨h1, _, _⟩ := resizeShrink_inj hc'
    rw [← h1] at hk
    have hklen : k < s.pool.length := lt_length_of_getElem? hpk
    by_cases hiz : i = 0
    · subst hiz
      have hudec : udec 0 = 4294967295 := by
        show (0 + 4294967295) % 4294967296 = 4294967295
        norm_num
      rw [hudec] at hk
      have := iv.pool_bound
      omega
    · have hudec : udec i = i - 1 := by
        show (i + 4294967295) % 4294967296 = i - 1
        omega
      rw [hudec] at hk
      by_cases hki : k = i
      · subst hki
        rw [hp] at hpk
        have hjj : j' = j := (Option.some_inj.mp hpk).symm
        subst hjj
        rcases getElem?_set_cases hj' with ⟨hne, _⟩ | ⟨_, rfl⟩
        · exact absurd rfl hne
        · rfl
      · have hik : i < k := by omega
        rcases getElem?_set_cases hj' with ⟨_, hj''⟩ | ⟨_, rfl⟩
        · exact iv.shrink_ph i n rest hc k j' wt' hik hpk hj''
        · rfl
  · intro i' rest' hc'
    exact Ctrl.noConfusion hc'
  · intro rest' hc'
    rcases hc' with hc' | hc' <;> exact Ctrl.noConfusion hc'
  · intro n' rest' hc'
    exact Ctrl.noConfusion hc'

theorem inv_shrinkDone {s : Sys} {i n : Nat} {rest : List Op}
    (hc : s.ctrl = Ctrl.resizeShrink i n rest) (hlt : i < n) (iv : InvS s) :
    InvS { s with pool := s.pool.take n, ctrl := Ctrl.ready rest } := by
  refine ⟨iv.occ_eq, iv.hlen, iv.held_run, iv.idle_eq, ?_, ?_, ?_, ?_, ?_, ?_, ?_,
    iv.exec_res, iv.disc_res, ?_⟩
  · intro j hj
    exact iv.pool_lt j (List.mem_of_mem_take hj)
  · intro j wt hj hnp
    by_cases hjp : j ∈ s.pool
    · rcases List.mem_iff_getElem?.mp hjp with ⟨k, hk⟩
      have hklen : k < s.pool.length := lt_length_of_getElem? hk
      by_cases hkn : k < n
      · exfalso
        apply hnp
        apply List.mem_iff_getElem?.mpr
        exact ⟨k, by rw [List.getElem?_take_of_lt hkn]; exact hk⟩
      · exact Or.inl (iv.shrink_ph i n rest hc k j wt (by omega) hk hj)
    · exact iv.off_pool j wt hj hjp
  · have h1 : (s.pool.take n).length ≤ s.pool.length := by
      simp [List.length_take]
    have h2 := iv.pool_bound
    show (s.pool.take n).length < 4294967296
    omega
  · intro i' n' rest' hc'
    exact Ctrl.noConfusion hc'
  · intro i' n' rest' hc'
    exact Ctrl.noConfusion hc'
  · intro i' rest' hc'
    exact Ctrl.noConfusion hc'
  · intro rest' hc'
    rcases hc' with hc' | hc' <;> exact Ctrl.noConfusion hc'
  · intro n' rest' hc'
    exact Ctrl.noConfusion hc'

theorem inv_to_ready {s : Sys} (rest : List Op) (iv : InvS s) :
    InvS { s with ctrl := Ctrl.ready rest } :=
  inv_ctrl_vac _ iv (fun _ _ _ h => Ctrl.noConfusion h)
    (fun _ _ h => Ctrl.noConfusion h) (fun _ h => Ctrl.noConfusion h)
    (fun _ h => Ctrl.noConfusion h) (fun _ _ h => Ctrl.noConfusion h)

theorem inv_to_stopFlags {s : Sys} (i tc : Nat) (rest : List Op) (iv : InvS s) :
    InvS { s with ctrl := Ctrl.stopFlags i tc rest } :=
  inv_ctrl_vac _ iv (fun _ _ _ h => Ctrl.noConfusion h)
    (fun _ _ h => Ctrl.noConfusion h) (fun _ h => Ctrl.noConfusion h)
    (fun _ h => Ctrl.noConfusion h) (fun _ _ h => Ctrl.noConfusion h)

theorem inv_to_d1 {s : Sys} (rest : List Op) (iv : InvS s) :
    InvS { s with ctrl := Ctrl.stopDiscard1 rest } :=
  inv_ctrl_vac _ iv (fun _ _ _ h => Ctrl.noConfusion h)
    (fun _ _ h => Ctrl.noConfusion h) (fun _ h => Ctrl.noConfusion h)
    (fun _ h => Ctrl.noConfusion h) (fun _ _ h => Ctrl.noConfusion h)

theorem inv_to_join0 {s : Sys} (rest : List Op) (iv : InvS s) :
    InvS { s with ctrl := Ctrl.stopJoin 0 rest } :=
  inv_ctrl_vac _ iv (fun _ _ _ h => Ctrl.noConfusion h)
    (fun i r h => by
      injection h with h1 _
      exact h1.symm)
    (fun _ h => Ctrl.noConfusion h)
    (fun _ h => Ctrl.noConfusion h) (fun _ _ h => Ctrl.noConfusion h)

theorem inv_to_grow {s : Sys} (n : Nat) (rest : List Op) (hb : n < 4294967296)
    (iv : InvS s) : InvS { s with ctrl := Ctrl.resizeGrow n rest } :=
  inv_ctrl_vac _ iv (fun _ _ _ h => Ctrl.noConfusion h)
    (fun _ _ h => Ctrl.noConfusion h) (fun _ h => Ctrl.noConfusion h)
    (fun _ h => Ctrl.noConfusion h)
    (fun n' r h => by
      injection h with h1 _
      rw [← h1]
      exact hb)

theorem inv_to_crashed {s : Sys} (iv : InvS s) :
    InvS { s with ctrl := Ctrl.crashed } :=
  inv_ctrl_vac _ iv (fun _ _ _ h => Ctrl.noConfusion h)
    (fun _ _ h => Ctrl.noConfusion h) (fun _ h => Ctrl.noConfusion h)
    (fun _ h => Ctrl.noConfusion h) (fun _ _ h => Ctrl.noConfusion h)

/-- The structural invariant is preserved by every step of any thread. -/
theorem inv_step {beh : Nat → Nat → TOut} {l : Lbl} {s s' : Sys}
    (hst : Step beh l s s') (iv : InvS s) : InvS s' := by
  cases hst with
  | popOk hw hpc hq => exact inv_popOk hw hpc hq iv
  | popEmpty hw hpc hq => exact inv_popEmpty hw hpc iv
  | execTask hw hpc hh => exact inv_execTask hw hpc hh iv
  | flagExit hw hpc hf => exact inv_flagExit hw hpc iv
  | flagCont hw hpc hf => exact inv_flagCont hw hpc iv
  | wakePop hw hpc hq => exact inv_wakePop hw hpc hq iv
  | wakeExit hw hpc hq hsig => exact inv_wakeExit hw hpc iv
  | enqueueStep hc => exact inv_enqueue _ iv
  | stopTrueEarly hc hfl => exact inv_to_ready _ iv
  | stopTrueSet hc hd hs => exact inv_to_join0 _ (inv_flags true s.stopFlag iv)
  | stopFalseEarly hc hs => exact inv_to_ready _ iv
  | stopFalseSet hc hs =>
    exact inv_to_stopFlags 0 s.pool.length _ (inv_flags s.doneFlag true iv)
  | stopFlagStep hc hi hp hj => exact inv_stopFlagStep hc hj iv
  | stopFlagDone hc hi => exact inv_to_d1 _ iv
  | discard1Pop hc hq =>
    exact inv_discard _ (PopTask_eq_some.mp hq) iv
      (fun _ _ _ h => Ctrl.noConfusion (hc.symm.trans h))
      (fun _ _ h => Ctrl.noConfusion (hc.symm.trans h))
      (fun r h => by
        rcases h with h | h <;> exact Ctrl.noConfusion (hc.symm.trans h))
      (fun _ _ h => Ctrl.noConfusion (hc.symm.trans h))
  | discard1Done hc hq => exact inv_to_join0 _ iv
  | joinStep hc hi hp hj hterm => exact inv_joinStep hc hp hj hterm iv
  | joinDone hc hi => exact inv_joinDone hc hi iv
  | discard2Pop hc hq =>
    exact inv_discard _ (PopTask_eq_some.mp hq) iv
      (fun _ _ _ h => Ctrl.noConfusion (hc.symm.trans h))
      (fun _ _ h => Ctrl.noConfusion (hc.symm.trans h))
      (fun r h => h)
      (fun _ _ h => Ctrl.noConfusion (hc.symm.trans h))
  | discard2Done hc hq => exact inv_discard2Done hc iv
  | clearStep hc => exact inv_clearStep hc iv
  | resizeEarly hc hfl => exact inv_to_ready _ iv
  | resizeSame hc hd hs hn => exact inv_to_ready _ iv
  | resizeGrowStart hc hd hs hlt hbound => exact inv_to_grow _ _ hbound iv
  | growStep hc hlt => exact inv_growStep hc hlt iv
  | growDone hc hge => exact inv_to_ready _ iv
  | resizeShrinkStart hc hd hs hlt => exact inv_resizeShrinkStart hlt iv
  | shrinkStep hc hi hp hj => exact inv_shrinkStep hc hp hj iv
  | shrinkOOB hc hi hoob => exact inv_to_crashed iv
  | shrinkDone hc hlt => exact inv_shrinkDone hc hlt iv

/-- The invariant holds right after construction. -/
theorem inv_init (n : Nat) (script : List Op) (hn : n < 4294967296) :
    InvS (mkInit n script) := by
  have hz1 : ((List.range n).map mkWorker).countP
      (fun w => w.held == some 0) = 0 := by
    apply List.countP_eq_zero.mpr
    intro a ha
    rcases List.mem_map.mp ha with ⟨i, _, rfl⟩
    simp [mkWorker]
  refine ⟨?_, rfl, ?_, ?_, ?_, ?_, ?_, ?_, ?_, ?_, ?_, ?_, ?_, ?_⟩
  · intro t
    have hz : ((List.range n).map mkWorker).countP
        (fun w => w.held == some t) = 0 := by
      apply List.countP_eq_zero.mpr
      intro a ha
      rcases List.mem_map.mp ha with ⟨i, _, rfl⟩
      simp [mkWorker]
    simp [occ, heldCount, mkInit, hz]
  · intro w hw hne
    rcases List.mem_map.mp hw with ⟨i, _, rfl⟩
    exact absurd rfl hne
  · have hz : ((List.range n).map mkWorker).countP
        (fun w => w.pc == WPC.parked) = 0 := by
      apply List.countP_eq_zero.mpr
      intro a ha
      rcases List.mem_map.mp ha with ⟨i, _, rfl⟩
      simp [mkWorker]
    show (0 : Int) = _
    simp [parkedCount, mkInit, hz]
  · intro j hj
    have : j < n := List.mem_range.mp hj
    simpa [mkInit] using this
  · intro j wt hj hnp
    have hlt : j < n := by
      have := lt_length_of_getElem? hj
      simpa [mkInit] using this
    exact absurd (List.mem_range.mpr hlt) hnp
  · simpa [mkInit] using hn
  · intro i n' rest hc
    exact Ctrl.noConfusion hc
  · intro i n' rest hc
    exact Ctrl.noConfusion hc
  · intro i rest hc
    exact Ctrl.noConfusion hc
  · intro rest hc
    rcases hc with hc | hc <;> exact Ctrl.noConfusion hc
  · intro t ht
    exact absurd ht (List.not_mem_nil t)
  · intro t ht
    exact absurd ht (List.not_mem_nil t)
  · intro n' rest hc
    exact Ctrl.noConfusion hc

/-- Every reachable state of a pool constructed with an unsigned worker
count satisfies the structural invariant. -/
theorem reach_inv {beh : Nat → Nat → TOut} {n : Nat} {script : List Op} {s : Sys}
    (hn : n < 4294967296) (hr : Reachable beh (mkInit n script) s) : InvS s := by
  induction hr with
  | refl => exact inv_init n script hn
  | tail hab hbc ih =>
    obtain ⟨l, hst⟩ := hbc
    exact inv_step hst ih

theorem foldl_PushTask (l q : List Nat) :
    List.foldl PushTask q l = q ++ l := by
  induction l generalizing q with
  | nil => simp
  | cons x xs ih =>
    simp only [List.foldl_cons, PushTask, ih]
    simp

theorem popAll_self (l : List Nat) : popAll l.length l = l := by
  induction l with
  | nil => rfl
  | cons x xs ih =>
    simp only [List.length_cons, popAll, PopTask, ih]

/-! Inversion lemmas on single steps. -/

/-- A worker that owns a task can only execute it. -/
theorem step_of_running {beh : Nat → Nat → TOut} {w : Nat} {s s' : Sys}
    {wt : WorkerT} {t : Nat}
    (hw : s.workers[w]? = some wt) (hpc : wt.pc = WPC.running)
    (hh : wt.held = some t) (hst : Step beh (Lbl.wrk w) s s') :
    s' = { s with handles := s.handles.set t (toH (beh t wt.wid))
                  executed := s.executed ++ [t]
                  workers := s.workers.set w
                    { wt with pc := WPC.flagCheck, held := none } } := by
  cases hst with
  | popOk hw' hpc' hq' =>
    rw [hw] at hw'
    cases Option.some_inj.mp hw'
    rw [hpc] at hpc'
    exact WPC.noConfusion hpc'
  | popEmpty hw' hpc' hq' =>
    rw [hw] at hw'
    cases Option.some_inj.mp hw'
    rw [hpc] at hpc'
    exact WPC.noConfusion hpc'
  | execTask hw' hpc' hh' =>
    rw [hw] at hw'
    cases Option.some_inj.mp hw'
    rw [hh] at hh'
    cases Option.some_inj.mp hh'
    rfl
  | flagExit hw' hpc' hf' =>
    rw [hw] at hw'
    cases Option.some_inj.mp hw'
    rw [hpc] at hpc'
    exact WPC.noConfusion hpc'
  | flagCont hw' hpc' hf' =>
    rw [hw] at hw'
    cases Option.some_inj.mp hw'
    rw [hpc] at hpc'
    exact WPC.noConfusion hpc'
  | wakePop hw' hpc' hq' =>
    rw [hw] at hw'
    cases Option.some_inj.mp hw'
    rw [hpc] at hpc'
    exact WPC.noConfusion hpc'
  | wakeExit hw' hpc' hq' hsig' =>
    rw [hw] at hw'
    cases Option.some_inj.mp hw'
    rw [hpc] at hpc'
    exact WPC.noConfusion hpc'

/-- A worker at the stop-flag test of line 177 with its flag set can only
return. -/
theorem step_of_flagCheck_true {beh : Nat → Nat → TOut} {w : Nat} {s s' : Sys}
    {wt : WorkerT}
    (hw : s.workers[w]? = some wt) (hpc : wt.pc = WPC.flagCheck)
    (hf : wt.flag = true) (hst : Step beh (Lbl.wrk w) s s') :
    s' = { s with workers := s.workers.set w
                    { wt with pc := WPC.terminated } } := by
  cases hst with
  | popOk hw' hpc' hq' =>
    rw [hw] at hw'
    cases Option.some_inj.mp hw'
    rw [hpc] at hpc'
    exact WPC.noConfusion hpc'
  | popEmpty hw' hpc' hq' =>
    rw [hw] at hw'
    cases Option.some_inj.mp hw'
    rw [hpc] at hpc'
    exact WPC.noConfusion hpc'
  | execTask hw' hpc' hh' =>
    rw [hw] at hw'
    cases Option.some_inj.mp hw'
    rw [hpc] at hpc'
    exact WPC.noConfusion hpc'
  | flagExit hw' hpc' hf' =>
    rw [hw] at hw'
    cases Option.some_inj.mp hw'
    rfl
  | flagCont hw' hpc' hf' =>
    rw [hw] at hw'
    cases Option.some_inj.mp hw'
    rw [hf] at hf'
    exact Bool.noConfusion hf'
  | wakePop hw' hpc' hq' =>
    rw [hw] at hw'
    cases Option.some_inj.mp hw'
    rw [hpc] at hpc'
    exact WPC.noConfusion hpc'
  | wakeExit hw' hpc' hq' hsig' =>
    rw [hw] at hw'
    cases Option.some_inj.mp hw'
    rw [hpc] at hpc'
    exact WPC.noConfusion hpc'

/-- The possible controller steps at a Stop(true) call site. -/
theorem stopTrue_inv {beh : Nat → Nat → TOut} {s s' : Sys} {rest : List Op}
    (hc : s.ctrl = Ctrl.ready (Op.stop true :: rest))
    (hst : Step beh Lbl.ctl s s') :
    ((s.doneFlag = true ∨ s.stopFlag = true) ∧
      s' = { s with ctrl := Ctrl.ready rest })
    ∨ (s.doneFlag = false ∧ s.stopFlag = false ∧
      s' = { s with doneFlag := true, ctrl := Ctrl.stopJoin 0 rest }) := by
  cases hst with
  | enqueueStep hc' =>
    have h2 := hc.symm.trans hc'
    injection h2 with h3
    injection h3 with h4 h5
    exact Op.noConfusion h4
  | stopTrueEarly hc' hfl =>
    have h2 := hc.symm.trans hc'
    injection h2 with h3
    injection h3 with h4 h5
    rw [← h5]
    exact Or.inl ⟨hfl, rfl⟩
  | stopTrueSet hc' hd hs =>
    have h2 := hc.symm.trans hc'
    injection h2 with h3
    injection h3 with h4 h5
    rw [← h5]
    exact Or.inr ⟨hd, hs, rfl⟩
  | stopFalseEarly hc' hs =>
    have h2 := hc.symm.trans hc'
    injection h2 with h3
    injection h3 with h4 h5
    injection h4 with h6
    exact Bool.noConfusion h6
  | stopFalseSet hc' hs =>
    have h2 := hc.symm.trans hc'
    injection h2 with h3
    injection h3 with h4 h5
    injection h4 with h6
    exact Bool.noConfusion h6
  | stopFlagStep hc' hi hp hj => exact Ctrl.noConfusion (hc.symm.trans hc')
  | stopFlagDone hc' hi => exact Ctrl.noConfusion (hc.symm.trans hc')
  | discard1Pop hc' hq => exact Ctrl.noConfusion (hc.symm.trans hc')
  | discard1Done hc' hq => exact Ctrl.noConfusion (hc.symm.trans hc')
  | joinStep hc' hi hp hj hterm => exact Ctrl.noConfusion (hc.symm.trans hc')
  | joinDone hc' hi => exact Ctrl.noConfusion (hc.symm.trans hc')
  | discard2Pop hc' hq => exact Ctrl.noConfusion (hc.symm.trans hc')
  | discard2Done hc' hq => exact Ctrl.noConfusion (hc.symm.trans hc')
  | clearStep hc' => exact Ctrl.noConfusion (hc.symm.trans hc')
  | resizeEarly hc' hfl =>
    have h2 := hc.symm.trans hc'
    injection h2 with h3
    injection h3 with h4 h5
    exact Op.noConfusion h4
  | resizeSame hc' hd hs hn =>
    have h2 := hc.symm.trans hc'
    injection h2 with h3
    injection h3 with h4 h5
    exact Op.noConfusion h4
  | resizeGrowStart hc' hd hs hlt hbound =>
    have h2 := hc.symm.trans hc'
    injection h2 with h3
    injection h3 with h4 h5
    exact Op.noConfusion h4
  | growStep hc' hlt => exact Ctrl.noConfusion (hc.symm.trans hc')
  | growDone hc' hge => exact Ctrl.noConfusion (hc.symm.trans hc')
  | resizeShrinkStart hc' hd hs hlt =>
    have h2 := hc.symm.trans hc'
    injection h2 with h3
    injection h3 with h4 h5
    exact Op.noConfusion h4
  | shrinkStep hc' hi hp hj => exact Ctrl.noConfusion (hc.symm.trans hc')
  | shrinkOOB hc' hi hoob => exact Ctrl.noConfusion (hc.symm.trans hc')
  | shrinkDone hc' hlt => exact Ctrl.noConfusion (hc.symm.trans hc')

/-- The possible controller steps at a Stop(false) call site. -/
theorem stopFalse_inv {beh : Nat → Nat → TOut} {s s' : Sys} {rest : List Op}
    (hc : s.ctrl = Ctrl.ready (Op.stop false :: rest))
    (hst : Step beh Lbl.ctl s s') :
    (s.stopFlag = true ∧ s' = { s with ctrl := Ctrl.ready rest })
    ∨ (s.stopFlag = false ∧
      s' = { s with stopFlag := true
                    ctrl := Ctrl.stopFlags 0 s.pool.length rest }) := by
  cases hst with
  | enqueueStep hc' =>
    have h2 := hc.symm.trans hc'
    injection h2 with h3
    injection h3 with h4 h5
    exact Op.noConfusion h4
  | stopTrueEarly hc' hfl =>
    have h2 := hc.symm.trans hc'
    injection h2 with h3
    injection h3 with h4 h5
    injection h4 with h6
    exact Bool.noConfusion h6
  | stopTrueSet hc' hd hs =>
    have h2 := hc.symm.trans hc'
    injection h2 with h3
    injection h3 with h4 h5
    injection h4 with h6
    exact Bool.noConfusion h6
  | stopFalseEarly hc' hs =>
    have h2 := hc.symm.trans hc'
    injection h2 with h3
    injection h3 with h4 h5
    rw [← h5]
    exact Or.inl ⟨hs, rfl⟩
  | stopFalseSet hc' hs =>
    have h2 := hc.symm.trans hc'
    injection h2 with h3
    injection h3 with h4 h5
    rw [← h5]
    exact Or.inr ⟨hs, rfl⟩
  | stopFlagStep hc' hi hp hj => exact Ctrl.noConfusion (hc.symm.trans hc')
  | stopFlagDone hc' hi => exact Ctrl.noConfusion (hc.symm.trans hc')
  | discard1Pop hc' hq => exact Ctrl.noConfusion (hc.symm.trans hc')
  | discard1Done hc' hq => exact Ctrl.noConfusion (hc.symm.trans hc')
  | joinStep hc' hi hp hj hterm => exact Ctrl.noConfusion (hc.symm.trans hc')
  | joinDone hc' hi => exact Ctrl.noConfusion (hc.symm.trans hc')
  | discard2Pop hc' hq => exact Ctrl.noConfusion (hc.symm.trans hc')
  | discard2Done hc' hq => exact Ctrl.noConfusion (hc.symm.trans hc')
  | clearStep hc' => exact Ctrl.noConfusion (hc.symm.trans hc')
  | resizeEarly hc' hfl =>
    have h2 := hc.symm.trans hc'
    injection h2 with h3
    injection h3 with h4 h5
    exact Op.noConfusion h4
  | resizeSame hc' hd hs hn =>
    have h2 := hc.symm.trans hc'
    injection h2 with h3
    injection h3 with h4 h5
    exact Op.noConfusion h4
  | resizeGrowStart hc' hd hs hlt hbound =>
    have h2 := hc.symm.trans hc'
    injection h2 with h3
    injection h3 with h4 h5
    exact Op.noConfusion h4
  | growStep hc' hlt => exact Ctrl.noConfusion (hc.symm.trans hc')
  | growDone hc' hge => exact Ctrl.noConfusion (hc.symm.trans hc')
  | resizeShrinkStart hc' hd hs hlt =>
    have h2 := hc.symm.trans hc'
    injection h2 with h3
    injection h3 with h4 h5
    exact Op.noConfusion h4
  | shrinkStep hc' hi hp hj => exact Ctrl.noConfusion (hc.symm.trans hc')
  | shrinkOOB hc' hi hoob => exact Ctrl.noConfusion (hc.symm.trans hc')
  | shrinkDone hc' hlt => exact Ctrl.noConfusion (hc.symm.trans hc')

/-! Concrete runs used by counterexamples and witnesses. -/

theorem sC6_reach : Reachable behZ (mkInit 1 [Op.resize 0]) sC6 := by
  refine Relation.ReflTransGen.head
    ⟨Lbl.ctl, Step.resizeShrinkStart rfl rfl rfl (by decide)⟩ ?_
  refine Relation.ReflTransGen.head
    ⟨Lbl.ctl, Step.shrinkStep rfl (by decide) rfl rfl⟩ ?_
  refine Relation.ReflTransGen.head
    ⟨Lbl.ctl, Step.shrinkOOB rfl (by decide) (by decide)⟩ ?_
  exact Relation.ReflTransGen.refl

theorem sC3pre_reach :
    Reachable behZ (mkInit 1 [Op.stop true, Op.enqueue, Op.stop false])
      sC3pre := by
  refine Relation.ReflTransGen.head ⟨Lbl.ctl, Step.stopTrueSet rfl rfl rfl⟩ ?_
  refine Relation.ReflTransGen.head ⟨Lbl.wrk 0, Step.popEmpty rfl rfl rfl⟩ ?_
  refine Relation.ReflTransGen.head
    ⟨Lbl.wrk 0, Step.wakeExit rfl rfl rfl (Or.inl rfl)⟩ ?_
  refine Relation.ReflTransGen.head
    ⟨Lbl.ctl, Step.joinStep rfl (by decide) rfl rfl (Or.inr rfl)⟩ ?_
  refine Relation.ReflTransGen.head ⟨Lbl.ctl, Step.joinDone rfl (by decide)⟩ ?_
  refine Relation.ReflTransGen.head ⟨Lbl.ctl, Step.discard2Done rfl rfl⟩ ?_
  refine Relation.ReflTransGen.head ⟨Lbl.ctl, Step.clearStep rfl⟩ ?_
  refine Relation.ReflTransGen.head ⟨Lbl.ctl, Step.enqueueStep rfl⟩ ?_
  exact Relation.ReflTransGen.refl

theorem sC3_run : Relation.ReflTransGen (SysStep behZ) sC3pre sC3fin := by
  refine Relation.ReflTransGen.head ⟨Lbl.ctl, Step.stopFalseSet rfl rfl⟩ ?_
  refine Relation.ReflTransGen.head
    ⟨Lbl.ctl, Step.stopFlagDone rfl (by decide)⟩ ?_
  refine Relation.ReflTransGen.head ⟨Lbl.ctl, Step.discard1Pop rfl rfl⟩ ?_
  refine Relation.ReflTransGen.head ⟨Lbl.ctl, Step.discard1Done rfl rfl⟩ ?_
  refine Relation.ReflTransGen.head ⟨Lbl.ctl, Step.joinDone rfl (by decide)⟩ ?_
  refine Relation.ReflTransGen.head ⟨Lbl.ctl, Step.discard2Done rfl rfl⟩ ?_
  refine Relation.ReflTransGen.head ⟨Lbl.ctl, Step.clearStep rfl⟩ ?_
  exact Relation.ReflTransGen.refl

theorem sC4call_reach :
    Reachable behZ (mkInit 1 [Op.enqueue, Op.stop false]) sC4call := by
  refine Relation.ReflTransGen.head ⟨Lbl.ctl, Step.enqueueStep rfl⟩ ?_
  exact Relation.ReflTransGen.refl

theorem sC4_run : Relation.ReflTransGen (SysStep behZ) sC4call sC4fin := by
  refine Relation.ReflTransGen.head ⟨Lbl.ctl, Step.stopFalseSet rfl rfl⟩ ?_
  refine Relation.ReflTransGen.head ⟨Lbl.wrk 0, Step.popOk rfl rfl rfl⟩ ?_
  refine Relation.ReflTransGen.head ⟨Lbl.wrk 0, Step.execTask rfl rfl rfl⟩ ?_
  refine Relation.ReflTransGen.head
    ⟨Lbl.ctl, Step.stopFlagStep rfl (by decide) rfl rfl⟩ ?_
  refine Relation.ReflTransGen.head
    ⟨Lbl.ctl, Step.stopFlagDone rfl (by decide)⟩ ?_
  refine Relation.ReflTransGen.head ⟨Lbl.ctl, Step.discard1Done rfl rfl⟩ ?_
  refine Relation.ReflTransGen.head ⟨Lbl.wrk 0, Step.flagExit rfl rfl rfl⟩ ?_
  refine Relation.ReflTransGen.head
    ⟨Lbl.ctl, Step.joinStep rfl (by decide) rfl rfl (Or.inr rfl)⟩ ?_
  refine Relation.ReflTransGen.head ⟨Lbl.ctl, Step.joinDone rfl (by decide)⟩ ?_
  refine Relation.ReflTransGen.head ⟨Lbl.ctl, Step.discard2Done rfl rfl⟩ ?_
  refine Relation.ReflTransGen.head ⟨Lbl.ctl, Step.clearStep rfl⟩ ?_
  exact Relation.ReflTransGen.refl

theorem sC4w_reach : Reachable behZ (mkInit 1 [Op.enqueue]) sC4w := by
  refine Relation.ReflTransGen.head ⟨Lbl.ctl, Step.enqueueStep rfl⟩ ?_
  refine Relation.ReflTransGen.head ⟨Lbl.wrk 0, Step.popOk rfl rfl rfl⟩ ?_
  exact Relation.ReflTransGen.refl

theorem sC5_reach : Reachable behZ (mkInit 2 [Op.resize 1]) sC5 := by
  refine Relation.ReflTransGen.head ⟨Lbl.wrk 0, Step.popEmpty rfl rfl rfl⟩ ?_
  refine Relation.ReflTransGen.head ⟨Lbl.wrk 1, Step.popEmpty rfl rfl rfl⟩ ?_
  refine Relation.ReflTransGen.head
    ⟨Lbl.ctl, Step.resizeShrinkStart rfl rfl rfl (by decide)⟩ ?_
  refine Relation.ReflTransGen.head
    ⟨Lbl.ctl, Step.shrinkStep rfl (by decide) rfl rfl⟩ ?_
  refine Relation.ReflTransGen.head
    ⟨Lbl.ctl, Step.shrinkDone rfl (by decide)⟩ ?_
  exact Relation.ReflTransGen.refl

theorem sC8_reach : Reachable behC8 (mkInit 1 [Op.enqueue, Op.enqueue]) sC8 := by
  refine Relation.ReflTransGen.head ⟨Lbl.ctl, Step.enqueueStep rfl⟩ ?_
  refine Relation.ReflTransGen.head ⟨Lbl.ctl, Step.enqueueStep rfl⟩ ?_
  refine Relation.ReflTransGen.head ⟨Lbl.wrk 0, Step.popOk rfl rfl rfl⟩ ?_
  refine Relation.ReflTransGen.head ⟨Lbl.wrk 0, Step.execTask rfl rfl rfl⟩ ?_
  refine Relation.ReflTransGen.head ⟨Lbl.wrk 0, Step.flagCont rfl rfl rfl⟩ ?_
  refine Relation.ReflTransGen.head ⟨Lbl.wrk 0, Step.popOk rfl rfl rfl⟩ ?_
  refine Relation.ReflTransGen.head ⟨Lbl.wrk 0, Step.execTask rfl rfl rfl⟩ ?_
  refine Relation.ReflTransGen.head ⟨Lbl.wrk 0, Step.flagCont rfl rfl rfl⟩ ?_
  exact Relation.ReflTransGen.refl

/-! Stuckness of the C1 final state: no thread can take any further step. -/

/-- Refutation of C3 as stated: sC3pre is a pool on which Stop(true) has
taken effect (doneFlag set, worker joined, collections cleared) and a task
was then enqueued; running Stop(false) on it is not a no-op — only
_stopFlag is consulted at line 60, so the call sets _stopFlag and its
ClearTasks discards the queued task. -/
theorem C3_counterexample :
    Reachable behZ (mkInit 1 [Op.stop true, Op.enqueue, Op.stop false]) sC3pre ∧
    Relation.ReflTransGen (SysStep behZ) sC3pre sC3fin ∧
    sC3pre.doneFlag = true ∧ sC3pre.stopFlag = false ∧
    sC3pre.discarded = [] ∧
    sC3fin.stopFlag = true ∧ sC3fin.discarded = [0] :=
  ⟨sC3pre_reach, sC3_run, rfl, rfl, rfl, rfl, rfl⟩

/-- C3: the idempotence that does hold: a second Stop(true) after either
flag is already set, and a second Stop(false) after _stopFlag is already
set, return immediately and change nothing but the controller's position.
Stop(false) after only Stop(true) is NOT a no-op, because line 60 checks
only _stopFlag (C3_counterexample). -/
theorem C3_second_stop {beh : Nat → Nat → TOut} {s s' : Sys}
    {rest : List Op} {wait : Bool}
    (hc : s.ctrl = Ctrl.ready (Op.stop wait :: rest))
    (hfl : (wait = true ∧ (s.doneFlag = true ∨ s.stopFlag = true)) ∨
           (wait = false ∧ s.stopFlag = true))
    (hst : Step beh Lbl.ctl s s') :
    s' = { s with ctrl := Ctrl.ready rest } := by
  rcases hfl with ⟨hw, hfl⟩ | ⟨hw, hfl⟩
  · subst hw
    rcases stopTrue_inv hc hst with ⟨_, he⟩ | ⟨hd, hs2, _⟩
    · exact he
    · rcases hfl with h1 | h1
      · rw [hd] at h1; exact Bool.noConfusion h1
      · rw [hs2] at h1; exact Bool.noConfusion h1
  · subst hw
    rcases stopFalse_inv hc hst with ⟨_, he⟩ | ⟨hs2, _⟩
    · exact he
    · rw [hs2] at hfl; exact Bool.noConfusion hfl

theorem C3_second_stop_witness :
    (sC3w.ctrl = Ctrl.ready (Op.stop true :: []) ∧
      ((true = true ∧ (sC3w.doneFlag = true ∨ sC3w.stopFlag = true)) ∨
        (true = false ∧ sC3w.stopFlag = true)) ∧
      Step behZ Lbl.ctl sC3w { sC3w with ctrl := Ctrl.ready [] }) ∧
    { sC3w with ctrl := Ctrl.ready [] } = { sC3w with ctrl := Ctrl.ready [] } :=
  ⟨⟨rfl, Or.inl ⟨rfl, Or.inl rfl⟩, Step.stopTrueEarly rfl (Or.inl rfl)⟩,
    @C3_second_stop behZ sC3w { sC3w with ctrl := Ctrl.ready [] } [] true
      rfl (Or.inl ⟨rfl, Or.inl rfl⟩) (Step.stopTrueEarly rfl (Or.inl rfl))⟩

/-- Refutation of C4 as stated: task 0 is in the queue at the moment
Stop(false) is called (sC4call, controller about to run the call), yet in
the interleaving in which the worker pops and runs it between the _stopFlag
store of line 63 and the per-worker flag store of line 66, the run ends
with task 0 executed and nothing discarded. -/
theorem C4_counterexample :
    Reachable behZ (mkInit 1 [Op.enqueue, Op.stop false]) sC4call ∧
    sC4call.ctrl = Ctrl.ready [Op.stop false] ∧ sC4call.queue = [0] ∧
    Relation.ReflTransGen (SysStep behZ) sC4call sC4fin ∧
    sC4fin.ctrl = Ctrl.ready [] ∧
    sC4fin.executed = [0] ∧ sC4fin.discarded = [] :=
  ⟨sC4call_reach, rfl, rfl, sC4_run, rfl, rfl, rfl⟩

/-- C4: what does hold in every reachable state: every discarded task's
handle resolves to a broken promise (a defined discard failure, never a
blocking read) and the task was never executed; and every in-flight task (a
task a worker has popped and holds) is not discarded, and that worker's
only possible step executes it and fulfils its handle.  Whether a task
still queued at the call is discarded or executed depends on the
interleaving (C4_counterexample). -/
theorem C4_discard_handles {beh : Nat → Nat → TOut} {n : Nat}
    {script : List Op} {s : Sys} (hn : n < 4294967296)
    (hr : Reachable beh (mkInit n script) s) :
    (∀ t ∈ s.discarded, s.handles[t]? = some HState.broken ∧
       readHandle HState.broken = ReadRes.brokenPromise ∧ t ∉ s.executed) ∧
    (∀ w wt t, s.workers[w]? = some wt → wt.held = some t →
       t ∉ s.discarded ∧
       ∀ s', Step beh (Lbl.wrk w) s s' →
         s' = { s with handles := s.handles.set t (toH (beh t wt.wid))
                       executed := s.executed ++ [t]
                       workers := s.workers.set w
                         { wt with pc := WPC.flagCheck, held := none } }) := by
  have iv := reach_inv hn hr
  constructor
  · intro t ht
    refine ⟨iv.disc_res t ht, rfl, ?_⟩
    intro hex
    have h1 : 0 < s.executed.count t := List.count_pos_iff.mpr hex
    have h2 : 0 < s.discarded.count t := List.count_pos_iff.mpr ht
    have ho := iv.occ_eq t
    simp only [occ] at ho
    by_cases hlt : t < s.nextId
    · rw [if_pos hlt] at ho
      omega
    · rw [if_neg hlt] at ho
      omega
  · intro w wt t hw hh
    have hpc : wt.pc = WPC.running :=
      iv.held_run wt (List.getElem?_mem hw) (by simp [hh])
    have hocc := held_occ hw hh iv
    refine ⟨?_, fun s' hst => step_of_running hw hpc hh hst⟩
    intro hdx
    have h2 : 0 < s.discarded.count t := List.count_pos_iff.mpr hdx
    omega

theorem C4_discard_handles_witness :
    (1 < 4294967296 ∧ Reachable behZ (mkInit 1 [Op.enqueue]) sC4w) ∧
    ((∀ t ∈ sC4w.discarded, sC4w.handles[t]? = some HState.broken ∧
        readHandle HState.broken = ReadRes.brokenPromise ∧ t ∉ sC4w.executed) ∧
     (∀ w wt t, sC4w.workers[w]? = some wt → wt.held = some t →
        t ∉ sC4w.discarded ∧
        ∀ s', Step behZ (Lbl.wrk w) sC4w s' →
          s' = { sC4w with handles := sC4w.handles.set t (toH (behZ t wt.wid))
                           executed := sC4w.executed ++ [t]
                           workers := sC4w.workers.set w
                             { wt with pc := WPC.flagCheck, held := none } })) :=
  ⟨⟨by decide, sC4w_reach⟩, C4_discard_handles (by decide) sC4w_reach⟩

/-- Refutation of C5 as stated: after a 2-worker pool parks both workers
and a resize to 1 detaches the second one, the pool reaches sC5, in which
IdleThreadsCount() = 2 exceeds ThreadsCount() = 1 — the counter is not
bounded by the worker-collection size. -/
theorem C5_counterexample :
    Reachable behZ (mkInit 2 [Op.resize 1]) sC5 ∧
    ThreadsCount sC5 = 1 ∧ IdleThreadsCount sC5 = 2 ∧
    ¬ IdleThreadsCount sC5 ≤ (ThreadsCount sC5 : Int) :=
  ⟨sC5_reach, rfl, rfl, by decide⟩

/-- C5: in every reachable state IdleThreadsCount() is non-negative and at
most ThreadsCount() plus the number of detached, still-running workers.
The originally claimed upper bound ThreadsCount() alone fails once a
shrinking resize has detached parked workers (C5_counterexample). -/
theorem C5_idle_bounds {beh : Nat → Nat → TOut} {n : Nat} {script : List Op}
    {s : Sys} (hn : n < 4294967296)
    (hr : Reachable beh (mkInit n script) s) :
    0 ≤ IdleThreadsCount s ∧
    IdleThreadsCount s ≤ (ThreadsCount s : Int) + (detachedAliveCount s : Int) := by
  have iv := reach_inv hn hr
  have hb : parkedCount s ≤ detachedAliveCount s + s.pool.length := by
    apply countP_le_of_pos s.workers s.pool
      (fun w => w.pc == WPC.parked)
      (fun w => w.detached && !(w.pc == WPC.terminated))
    intro j x hj hp
    by_cases hjp : j ∈ s.pool
    · exact Or.inr hjp
    · left
      have hpc : x.pc = WPC.parked := eq_of_beq hp
      rcases iv.off_pool j x hj hjp with hd | ht
      · show (x.detached && !(x.pc == WPC.terminated)) = true
        rw [hd, hpc]
        rfl
      · rw [hpc] at ht
        exact WPC.noConfusion ht
  constructor
  · show (0 : Int) ≤ s.idle
    rw [iv.idle_eq]
    exact Int.natCast_nonneg _
  · show s.idle ≤ (s.pool.length : Int) + (detachedAliveCount s : Int)
    rw [iv.idle_eq]
    omega

theorem C5_idle_bounds_witness :
    (2 < 4294967296 ∧ Reachable behZ (mkInit 2 [Op.resize 1]) sC5) ∧
    0 ≤ IdleThreadsCount sC5 ∧
    IdleThreadsCount sC5 ≤ (ThreadsCount sC5 : Int) + (detachedAliveCount sC5 : Int) :=
  ⟨⟨by decide, sC5_reach⟩, C5_idle_bounds (by decide) sC5_reach⟩

/-- C6: a shrinking resize to 0 from one worker does not complete.  The
loop processed slot 0 (settings its flag and detaching it), then the
unsigned counter wrapped from 0 to 4294967295 = udec 0, still satisfying
the loop condition i >= 0, and the next access _threadsStopFlags[i] was out
of bounds: undefined behaviour, modelled as the crashed controller, from
which the resize can never finish — the collections are never truncated
(ThreadsCount is still 1) and no further lifecycle call can run. -/
theorem C6_shrink_to_zero_out_of_bounds :
    Reachable behZ (mkInit 1 [Op.resize 0]) sC6 ∧
    sC6.ctrl = Ctrl.crashed ∧
    udec 0 = 4294967295 ∧
    ThreadsCount sC6 = 1 ∧
    (∀ s', ¬ Step behZ Lbl.ctl sC6 s') := by
  refine ⟨sC6_reach, rfl, by decide, rfl, ?_⟩
  intro s' hst
  cases hst with
  | enqueueStep hc => simp [sC6] at hc
  | stopTrueEarly hc hfl => simp [sC6] at hc
  | stopTrueSet hc hd hs => simp [sC6] at hc
  | stopFalseEarly hc hs => simp [sC6] at hc
  | stopFalseSet hc hs => simp [sC6] at hc
  | stopFlagStep hc hi hp hj => simp [sC6] at hc
  | stopFlagDone hc hi => simp [sC6] at hc
  | discard1Pop hc hq => simp [sC6] at hc
  | discard1Done hc hq => simp [sC6] at hc
  | joinStep hc hi hp hj hterm => simp [sC6] at hc
  | joinDone hc hi => simp [sC6] at hc
  | discard2Pop hc hq => simp [sC6] at hc
  | discard2Done hc hq => simp [sC6] at hc
  | clearStep hc => simp [sC6] at hc
  | resizeEarly hc hfl => simp [sC6] at hc
  | resizeSame hc hd hs hn => simp [sC6] at hc
  | resizeGrowStart hc hd hs hlt hbound => simp [sC6] at hc
  | growStep hc hlt => simp [sC6] at hc
  | growDone hc hge => simp [sC6] at hc
  | resizeShrinkStart hc hd hs hlt => simp [sC6] at hc
  | shrinkStep hc hi hp hj => simp [sC6] at hc
  | shrinkOOB hc hi hoob => simp [sC6] at hc
  | shrinkDone hc hlt => simp [sC6] at hc

/-- C7: PushTask appends at the tail and PopTask removes the head of a
non-empty queue (and reports empty, without blocking, on an empty one), so
any sequence of pushed tasks is popped back in exactly the submission
order. -/
theorem C7_fifo_order :
    (∀ l : List Nat, popAll l.length (List.foldl PushTask [] l) = l) ∧
    (∀ (t : Nat) (r : List Nat), PopTask (t :: r) = some (t, r)) ∧
    PopTask ([] : List Nat) = none := by
  refine ⟨?_, fun t r => rfl, rfl⟩
  intro l
  rw [foldl_PushTask]
  simpa using popAll_self l

/-- C8: under the behaviour in which task 0's callable raises failure 7 and
every later callable returns 42, the one-worker pool reaches sC8: the
failure was captured into task 0's handle (reading it re-raises 7), the
worker was not terminated by it and went on to execute the later task 1,
whose handle reads back the value 42. -/
theorem C8_failure_captured :
    Reachable behC8 (mkInit 1 [Op.enqueue, Op.enqueue]) sC8 ∧
    behC8 0 0 = TOut.err 7 ∧
    sC8.handles[0]? = some (HState.resolvedErr 7) ∧
    readHandle (HState.resolvedErr 7) = ReadRes.raised 7 ∧
    sC8.executed = [0, 1] ∧
    sC8.handles[1]? = some (HState.resolvedOk 42) ∧
    readHandle (HState.resolvedOk 42) = ReadRes.value 42 ∧
    (∀ w ∈ sC8.workers, w.pc ≠ WPC.terminated) :=
  ⟨sC8_reach, rfl, rfl, rfl, rfl, rfl, rfl, by decide⟩

/-- Refutation of the second half of C9 as stated: after the worker enters
the wait region and its wait predicate calls PopTask (line 188 calling
lines 207-216), the same thread holds _threadsMutex and _tasksMutex
simultaneously. -/
theorem C9_counterexample :
    LockId.threads ∈ heldAfter (WorkerLockTrace.take 6) ∧
    LockId.tasks ∈ heldAfter (WorkerLockTrace.take 6) := by decide

/-- C9: the lock discipline that does hold on every member function's lock
trace: no lock is held while the thread is blocked inside the signal wait,
_threadsMutex is never acquired while _tasksMutex is held (the only nesting
takes _threadsMutex first, so there is no ordering cycle), and every trace
ends with all locks released.  The two locks ARE held simultaneously inside
the worker's wait predicate, refuting the claim's second half
(C9_counterexample), but the single consistent nesting order still rules
out deadlock. -/
theorem C9_lock_discipline :
    (blockedFree [] WorkerLockTrace = true ∧
     blockedFree [] EnqueueLockTrace = true ∧
     blockedFree [] StopLockTrace = true) ∧
    (noRevOrder [] WorkerLockTrace = true ∧
     noRevOrder [] EnqueueLockTrace = true ∧
     noRevOrder [] StopLockTrace = true) ∧
    (heldAfter WorkerLockTrace = [] ∧ heldAfter EnqueueLockTrace = [] ∧
     heldAfter StopLockTrace = []) ∧
    (∀ k, blockedFree [] (clearTraceN k) = true ∧
      noRevOrder [] (clearTraceN k) = true ∧ heldAfter (clearTraceN k) = []) := by
  refine ⟨⟨rfl, rfl, rfl⟩, ⟨rfl, rfl, rfl⟩, ⟨rfl, rfl, rfl⟩, ?_⟩
  intro k
  induction k with
  | zero => exact ⟨rfl, rfl, rfl⟩
  | succ m ih =>
    obtain ⟨h1, h2, h3⟩ := ih
    exact ⟨h1, h2, h3⟩

/-- C10: a worker that reaches the stop-flag test of line 177 with its own
cancellation flag set has exactly one possible step: it terminates at once,
without popping another task even when the queue is non-empty, and the
queue, the execution history and the discard history are untouched — the
cancelled worker abandons remaining queued work. -/
theorem C10_cancelled_worker_exits {beh : Nat → Nat → TOut} {w : Nat}
    {s : Sys} {wt : WorkerT}
    (hw : s.workers[w]? = some wt) (hpc : wt.pc = WPC.flagCheck)
    (hf : wt.flag = true) :
    Step beh (Lbl.wrk w) s
      { s with workers := s.workers.set w { wt with pc := WPC.terminated } } ∧
    ∀ s', Step beh (Lbl.wrk w) s s' →
      s' = { s with workers := s.workers.set w { wt with pc := WPC.terminated } }
        ∧ s'.queue = s.queue ∧ s'.executed = s.executed
        ∧ s'.discarded = s.discarded := by
  refine ⟨Step.flagExit hw hpc hf, fun s' hst => ?_⟩
  have h := step_of_flagCheck_true hw hpc hf hst
  refine ⟨h, ?_, ?_, ?_⟩ <;> rw [h]

theorem C10_cancelled_worker_exits_witness :
    (sC10w.workers[0]? =
        some ⟨WPC.flagCheck, none, true, false, 0⟩ ∧
      sC10w.queue = [5]) ∧
    (Step behZ (Lbl.wrk 0) sC10w
        { sC10w with workers :=
            sC10w.workers.set 0 ⟨WPC.terminated, none, true, false, 0⟩ } ∧
      ∀ s', Step behZ (Lbl.wrk 0) sC10w s' →
        s' = { sC10w with workers :=
            sC10w.workers.set 0 ⟨WPC.terminated, none, true, false, 0⟩ }
          ∧ s'.queue = sC10w.queue ∧ s'.executed = sC10w.executed
          ∧ s'.discarded = sC10w.discarded) :=
  ⟨⟨rfl, rfl⟩,
    @C10_cancelled_worker_exits behZ 0 sC10w
      ⟨WPC.flagCheck, none, true, false, 0⟩ rfl rfl rfl⟩

end ThreadPoolModel
